import Mathlib

/-!
# Loan pay-down simulator of `main.go`

A shallow embedding of the monthly simulation loop of `main` (lines 156-236 of
`src/main.go`) together with the properties stated for it.

Modelling conventions.

* Amounts are `float32` in the program.  The loop is embedded twice.  The first
  embedding (`monthBody`, `simulate`, `resultData`) computes in exact rationals
  (`ℚ`), the literal `0.01` being `1 / 100`: it is the arithmetic the program
  is written in, and the statements that do not turn on the rounding of a
  result are made on it.  The second embedding
  (`monthBody32`, `simulate32`, `resultData32`) rounds every arithmetic result
  to float32 with `round32`, the literal `0.01` being `round32 (1 / 100)`: the
  statements whose truth depends on the rounding (termination, the number of
  rows, conservation of the amounts) are made on it, and their counterexamples
  are runs of it.  No fused multiply-add is assumed, and a result too large for
  float32 is outside every statement (see `round32`).
* A `time.Time` is its instant, an `Int`.  `a.After(b)` is `b < a`.  The two
  library calls the loop makes, `time.Now()` and `t.AddDate(0, 1, 0)`, are the
  parameters `now` and `addMonth`.
* `LoanInfos` is a slice of pointers that the loop mutates in place; here every
  phase returns the updated list.
* `resultData`, a map keyed by the month, is the list of rows in the order the
  loop writes them; a row is the month and the balance of every loan, in
  slice order.  `AddDate(0, 1, 0)` moves the instant forward, so the keys are
  pairwise distinct and the list is the map read in key order; the theorems
  that depend on the calendar take `∀ t, t < addMonth t` as a hypothesis.
* The `for` loop has no bound of its own, so `simulate` takes the number of
  months it may run; its second component tells whether the `break` was
  reached.
-/

namespace SheetsTest

/-- The `LoanInfo` struct of `main.go`.  The `float32` fields are rationals; in
the float32 embedding they hold float32 values, the fixed points of
`round32`. -/
structure LoanInfo where
  Name : String
  StartDate : Int
  Amount : ℚ
  InterestRate : ℚ
  Term : Int
  Payment : ℚ
  AdditionalPayment : ℚ
  deriving DecidableEq

/-- The guard `v.StartDate.After(dateTracker) || v.Amount < 0.01` that makes the
two inner loops `continue`. -/
def skipped (dateTracker : Int) (v : LoanInfo) : Bool :=
  decide (dateTracker < v.StartDate) || decide (v.Amount < 1 / 100)

/-- The variables the payment loop carries from one loan to the next. -/
structure Pools where
  remainder : ℚ
  rollOver : ℚ
  anyPositiveRemaining : Bool
  deriving DecidableEq

/-- New balance of a loan that receives `payment`: zero when the payment
exceeds the balance, the difference otherwise (lines 177-184 and 213-219), in
exact arithmetic; `applyPayment32` rounds the difference to float32. -/
def applyPayment (payment amount : ℚ) : ℚ :=
  if payment > amount then 0 else amount - payment

/-- One pass of the body of the payment loop (lines 172-188) for the loan `v`. -/
def payLoan (dateTracker : Int) (v : LoanInfo) (p : Pools) : LoanInfo × Pools :=
  if skipped dateTracker v then (v, p)
  else
    let payment := v.Payment + v.AdditionalPayment
    let v1 : LoanInfo := { v with Amount := applyPayment payment v.Amount }
    let p1 : Pools :=
      if payment > v.Amount then
        { p with remainder := p.remainder + (payment - v.Amount),
                 rollOver := p.rollOver + payment }
      else p
    (v1, if v1.Amount > 0 then { p1 with anyPositiveRemaining := true } else p1)

/-- The payment loop `for _, v := range LoanInfos` of lines 171-192. -/
def phaseA (dateTracker : Int) : List LoanInfo → Pools → List LoanInfo × Pools
  | [], p => ([], p)
  | v :: vs, p =>
    let r := payLoan dateTracker v p
    let rest := phaseA dateTracker vs r.2
    (r.1 :: rest.1, rest.2)

/-- The search loop of lines 198-207, started at index `i` with the current
`(highestInterestLoan, highestInterest)`. -/
def findHighest (dateTracker : Int) : List LoanInfo → Nat → Nat × ℚ → Nat × ℚ
  | [], _, best => best
  | v :: vs, i, best =>
    findHighest dateTracker vs (i + 1)
      (if skipped dateTracker v then best
       else if v.InterestRate > best.2 then (i, v.InterestRate) else best)

/-- The pair `(highestInterestLoan, highestInterest)` after the search loop;
both start at zero (lines 196-197). -/
def highestInterest (dateTracker : Int) (loans : List LoanInfo) : Nat × ℚ :=
  findHighest dateTracker loans 0 (0, 0)

/-- Whether the redirect of lines 195-221 pays a loan: one of the pools is
positive and the search found an interest rate above zero. -/
def redirects (dateTracker : Int) (loans : List LoanInfo) (remainder rollOver : ℚ) : Bool :=
  (decide (remainder > 0) || decide (rollOver > 0)) &&
    decide ((highestInterest dateTracker loans).2 > 0)

/-- The redirect of lines 195-221: the loans and the remainder afterwards.  The
index the search returns is within the slice whenever the rate found is above
zero (`phaseB_of_redirects`), so the `none` branch is never taken. -/
def phaseB (dateTracker : Int) (loans : List LoanInfo) (remainder rollOver : ℚ) :
    List LoanInfo × ℚ :=
  if redirects dateTracker loans remainder rollOver then
    let i := (highestInterest dateTracker loans).1
    match loans[i]? with
    | none => (loans, remainder)
    | some v =>
      let payment := remainder + rollOver
      (loans.set i { v with Amount := applyPayment payment v.Amount },
        if payment > v.Amount then payment - v.Amount else 0)
  else (loans, remainder)

/-- The variables that live across iterations of the outer loop. -/
structure State where
  LoanInfos : List LoanInfo
  rollOver : ℚ
  remainder : ℚ
  dateTracker : Int
  deriving DecidableEq

/-- Lines 169-221 of one iteration: the payment loop followed by the redirect.
Returns the state before the snapshot and `anyPositiveRemaining`. -/
def monthBody (s : State) : State × Bool :=
  let a := phaseA s.dateTracker s.LoanInfos
    { remainder := s.remainder, rollOver := s.rollOver, anyPositiveRemaining := false }
  let b := phaseB s.dateTracker a.1 a.2.remainder a.2.rollOver
  ({ LoanInfos := b.1, rollOver := a.2.rollOver, remainder := b.2,
     dateTracker := s.dateTracker }, a.2.anyPositiveRemaining)

/-- The row written by lines 224-226. -/
def snapshot (s : State) : Int × List ℚ :=
  (s.dateTracker, s.LoanInfos.map (fun v => v.Amount))

/-- Line 233 for one loan. -/
def accrueLoan (v : LoanInfo) : LoanInfo :=
  { v with Amount := v.Amount + v.Amount * (v.InterestRate / 12) }

/-- Lines 232-235: interest on every loan, then the next month. -/
def accrue (addMonth : Int → Int) (s : State) : State :=
  { s with LoanInfos := s.LoanInfos.map accrueLoan,
           dateTracker := addMonth s.dateTracker }

/-- The outer loop of lines 168-236, run for at most `fuel` months: the rows
written and whether the `break` of line 229 was reached. -/
def simulate (addMonth : Int → Int) : Nat → State → List (Int × List ℚ) × Bool
  | 0, _ => ([], false)
  | fuel + 1, s =>
    let r := monthBody s
    if r.2 = false then ([snapshot r.1], true)
    else
      let rest := simulate addMonth fuel (accrue addMonth r.1)
      (snapshot r.1 :: rest.1, rest.2)

/-- Lines 156-161: the earliest of `time.Now()` and the start dates. -/
def earliestStart (now : Int) : List LoanInfo → Int
  | [] => now
  | v :: vs => earliestStart (if now > v.StartDate then v.StartDate else now) vs

/-- The state in which the outer loop is entered (lines 163-167). -/
def initState (now : Int) (LoanInfos : List LoanInfo) : State :=
  { LoanInfos := LoanInfos, rollOver := 0, remainder := 0,
    dateTracker := earliestStart now LoanInfos }

/-- Lines 156-236 of `main`: `resultData` after at most `fuel` months and
whether the loop has stopped. -/
def resultData (now : Int) (addMonth : Int → Int) (fuel : Nat) (LoanInfos : List LoanInfo) :
    List (Int × List ℚ) × Bool :=
  simulate addMonth fuel (initState now LoanInfos)

/-! ## Auxiliary definitions used in the statements -/

/-- The sum `v.Payment + v.AdditionalPayment` of line 176. -/
def payment (v : LoanInfo) : ℚ := v.Payment + v.AdditionalPayment

/-- The loan as the payment loop leaves it; the pools play no part in it. -/
def afterPayment (dateTracker : Int) (v : LoanInfo) : LoanInfo :=
  if skipped dateTracker v then v
  else { v with Amount := applyPayment (payment v) v.Amount }

/-- What the payment loop adds to `remainder` for the loan `v` (line 178). -/
def overflow (dateTracker : Int) (v : LoanInfo) : ℚ :=
  if skipped dateTracker v then 0
  else if payment v > v.Amount then payment v - v.Amount else 0

/-- Whether the loan `v` makes the payment loop set `anyPositiveRemaining`. -/
def staysPositive (dateTracker : Int) (v : LoanInfo) : Bool :=
  !skipped dateTracker v && decide ((afterPayment dateTracker v).Amount > 0)

/-- A loan is active at `t` when it has started and its balance has not fallen
below `0.01`; these are the loans the two inner loops do not skip. -/
def active (t : Int) (v : LoanInfo) : Prop := v.StartDate ≤ t ∧ 1 / 100 ≤ v.Amount

/-- The loans and pools between the payment loop and the redirect. -/
def afterPhaseA (s : State) : List LoanInfo × Pools :=
  phaseA s.dateTracker s.LoanInfos
    { remainder := s.remainder, rollOver := s.rollOver, anyPositiveRemaining := false }

/-- Whether line 215 runs: the redirect pays a loan and the amount paid exceeds
that loan's balance, so a new remainder is created. -/
def redirectOverflows (dateTracker : Int) (loans : List LoanInfo) (remainder rollOver : ℚ) :
    Bool :=
  redirects dateTracker loans remainder rollOver &&
    match loans[(highestInterest dateTracker loans).1]? with
    | none => false
    | some v => decide (remainder + rollOver > v.Amount)

/-- The test of line 228: the loop breaks when `anyPositiveRemaining` is false. -/
def codeStop (s : State) : Bool := !(monthBody s).2

/-- The stop test as the specification words it (Phase D): stop when
`any_positive` is false and no remainder was newly created in Phase B. -/
def specStop (s : State) : Bool :=
  !(afterPhaseA s).2.anyPositiveRemaining &&
    !redirectOverflows s.dateTracker (afterPhaseA s).1 (afterPhaseA s).2.remainder
      (afterPhaseA s).2.rollOver

/-- One full iteration that does not break: payments, redirect, interest and
the step to the next month. -/
def nextMonth (addMonth : Int → Int) (s : State) : State :=
  accrue addMonth (monthBody s).1

/-- The state in which month `k` (counted from zero) is entered, provided the
loop has not stopped before. -/
def stateAt (addMonth : Int → Int) (s : State) (k : Nat) : State :=
  (nextMonth addMonth)^[k] s

/-- The loan `v` after a month in which it may have received `x` from the
redirect: the payment loop's result, or that result paid `x` once more, which
can only happen to a loan the redirect does not skip. -/
def monthResult (t : Int) (x : ℚ) (v w : LoanInfo) : Prop :=
  w = afterPayment t v ∨
    (skipped t (afterPayment t v) = false ∧
      w = { afterPayment t v with Amount := applyPayment x (afterPayment t v).Amount })

/-- The integer nearest to `y`, the even one of the two when `y` lies half
way. -/
def roundHalfEven (y : ℚ) : Int :=
  if y - ⌊y⌋ < 1 / 2 then ⌊y⌋
  else if 1 / 2 < y - ⌊y⌋ then ⌊y⌋ + 1
  else if ⌊y⌋ % 2 = 0 then ⌊y⌋ else ⌊y⌋ + 1

/-- Rounding to float32: 24 significant bits, exponents from -126 to 127, round
to nearest, ties to even. -/
def round32 (x : ℚ) : ℚ :=
  if x = 0 then 0
  else
    let q : ℚ := 2 ^ (max (Int.log 2 |x|) (-126) - 23)
    let r : ℚ := (roundHalfEven (x / q) : ℚ) * q
    if |r| < 2 ^ 128 then r else 0

/-- The guard of lines 172 and 199 on float32 values. -/
def skipped32 (dateTracker : Int) (v : LoanInfo) : Bool :=
  decide (dateTracker < v.StartDate) || decide (v.Amount < round32 (1 / 100))

/-- Lines 177-184 and 213-219 for the balance, in float32. -/
def applyPayment32 (payment amount : ℚ) : ℚ :=
  if payment > amount then 0 else round32 (amount - payment)

/-- Lines 172-188 for the loan `v`, in float32. -/
def payLoan32 (dateTracker : Int) (v : LoanInfo) (p : Pools) : LoanInfo × Pools :=
  if skipped32 dateTracker v then (v, p)
  else
    let payment := round32 (v.Payment + v.AdditionalPayment)
    let v1 : LoanInfo := { v with Amount := applyPayment32 payment v.Amount }
    let p1 : Pools :=
      if payment > v.Amount then
        { p with remainder := round32 (p.remainder + round32 (payment - v.Amount)),
                 rollOver := round32 (p.rollOver + payment) }
      else p
    (v1, if v1.Amount > 0 then { p1 with anyPositiveRemaining := true } else p1)

/-- The payment loop of lines 171-192, in float32. -/
def phaseA32 (dateTracker : Int) : List LoanInfo → Pools → List LoanInfo × Pools
  | [], p => ([], p)
  | v :: vs, p =>
    let r := payLoan32 dateTracker v p
    let rest := phaseA32 dateTracker vs r.2
    (r.1 :: rest.1, rest.2)

/-- The search loop of lines 198-207 with the float32 guard. -/
def findHighest32 (dateTracker : Int) : List LoanInfo → Nat → Nat × ℚ → Nat × ℚ
  | [], _, best => best
  | v :: vs, i, best =>
    findHighest32 dateTracker vs (i + 1)
      (if skipped32 dateTracker v then best
       else if v.InterestRate > best.2 then (i, v.InterestRate) else best)

/-- The pair `(highestInterestLoan, highestInterest)` after the search loop. -/
def highestInterest32 (dateTracker : Int) (loans : List LoanInfo) : Nat × ℚ :=
  findHighest32 dateTracker loans 0 (0, 0)

/-- Whether the redirect of lines 195-221 pays a loan. -/
def redirects32 (dateTracker : Int) (loans : List LoanInfo) (remainder rollOver : ℚ) : Bool :=
  (decide (remainder > 0) || decide (rollOver > 0)) &&
    decide ((highestInterest32 dateTracker loans).2 > 0)

/-- The redirect of lines 195-221, in float32. -/
def phaseB32 (dateTracker : Int) (loans : List LoanInfo) (remainder rollOver : ℚ) :
    List LoanInfo × ℚ :=
  if redirects32 dateTracker loans remainder rollOver then
    let i := (highestInterest32 dateTracker loans).1
    match loans[i]? with
    | none => (loans, remainder)
    | some v =>
      let payment := round32 (remainder + rollOver)
      (loans.set i { v with Amount := applyPayment32 payment v.Amount },
        if payment > v.Amount then round32 (0 + round32 (payment - v.Amount)) else 0)
  else (loans, remainder)

/-- The loans and pools between the payment loop and the redirect, in
float32. -/
def afterPhaseA32 (s : State) : List LoanInfo × Pools :=
  phaseA32 s.dateTracker s.LoanInfos
    { remainder := s.remainder, rollOver := s.rollOver, anyPositiveRemaining := false }

/-- Lines 169-221 of one iteration, in float32. -/
def monthBody32 (s : State) : State × Bool :=
  let a := afterPhaseA32 s
  let b := phaseB32 s.dateTracker a.1 a.2.remainder a.2.rollOver
  ({ LoanInfos := b.1, rollOver := a.2.rollOver, remainder := b.2,
     dateTracker := s.dateTracker }, a.2.anyPositiveRemaining)

/-- Line 233 for one loan, in float32. -/
def accrueLoan32 (v : LoanInfo) : LoanInfo :=
  { v with Amount := round32 (v.Amount + round32 (v.Amount * round32 (v.InterestRate / 12))) }

/-- Lines 232-235, in float32. -/
def accrue32 (addMonth : Int → Int) (s : State) : State :=
  { s with LoanInfos := s.LoanInfos.map accrueLoan32,
           dateTracker := addMonth s.dateTracker }

/-- The outer loop of lines 168-236 in float32, run for at most `fuel` months:
the rows written and whether the `break` of line 229 was reached. -/
def simulate32 (addMonth : Int → Int) : Nat → State → List (Int × List ℚ) × Bool
  | 0, _ => ([], false)
  | fuel + 1, s =>
    let r := monthBody32 s
    if r.2 = false then ([snapshot r.1], true)
    else
      let rest := simulate32 addMonth fuel (accrue32 addMonth r.1)
      (snapshot r.1 :: rest.1, rest.2)

/-- Lines 156-236 of `main` in float32: `resultData` after at most `fuel`
months and whether the loop has stopped. -/
def resultData32 (now : Int) (addMonth : Int → Int) (fuel : Nat) (LoanInfos : List LoanInfo) :
    List (Int × List ℚ) × Bool :=
  simulate32 addMonth fuel (initState now LoanInfos)

/-- The month computed in float32 gives the results of exact arithmetic: the
same loans, pools and flag after the payment loop and after the redirect. -/
def exactMonth (s : State) : Prop :=
  afterPhaseA32 s = afterPhaseA s ∧ monthBody32 s = monthBody s

/-- Three active loans at rates 5 %, 9 % and 9 %. -/
def tieLoans : List LoanInfo :=
  [⟨"a", 0, 500, 5 / 100, 12, 50, 0⟩, ⟨"b", 0, 700, 9 / 100, 12, 50, 0⟩,
   ⟨"c", 0, 900, 9 / 100, 12, 50, 0⟩]

/-- The loans of Scenario 2: A (100 at 0 %, payment 100) and B (1000 at 12 %,
payment 50), same start date. -/
def scenario2 : List LoanInfo :=
  [⟨"A", 0, 100, 0, 1, 100, 0⟩, ⟨"B", 0, 1000, 12 / 100, 24, 50, 0⟩]

/-- Two loans on the same calendar: "Old" starts in month 0, "New" three months
later at 12 %. -/
def delayedStart : List LoanInfo :=
  [⟨"Old", 0, 1000, 0, 10, 100, 0⟩, ⟨"New", 3, 1200, 12 / 100, 24, 50, 0⟩]

/-- A loan that one payment retires, and a loan that starts three months
later. -/
def lateLoan : List LoanInfo :=
  [⟨"A", 0, 100, 0, 1, 100, 0⟩, ⟨"B", 3, 1000, 12 / 100, 24, 50, 0⟩]

/-- A single loan without interest whose principal is zero. -/
def zeroLoan : LoanInfo := ⟨"A", 0, 0, 0, 1, 100, 0⟩

/-- The loan of Scenario 1: 1000 at 0 %, payment 100. -/
def scenario1 : LoanInfo := ⟨"A", 0, 1000, 0, 10, 100, 0⟩

/-- A loan whose payment cannot be subtracted exactly in float32:
300000.25 - 1000.0078125 lies between two float32 values. -/
def roundedLoan : LoanInfo := ⟨"A", 0, 1200001 / 4, 0, 360, 128001 / 128, 0⟩

/-- The state in which the loop is entered on `roundedLoan`. -/
def roundedState : State :=
  { LoanInfos := [roundedLoan], rollOver := 0, remainder := 0, dateTracker := 0 }

/-- A loan that one payment retires with an overflow of 50, and a loan at
12.5 % that receives the redirect; every amount is a whole number. -/
def wholeLoans : List LoanInfo :=
  [⟨"A", 0, 100, 0, 1, 150, 0⟩, ⟨"B", 0, 1000, 1 / 8, 24, 50, 0⟩]

/-- A single loan without interest whose first payment leaves 1/256. -/
def dustLoan : LoanInfo := ⟨"A", 0, 100 + 1 / 256, 0, 2, 100, 0⟩

/-- A single loan without interest whose payment of 0.5 is lost when it is
subtracted from 16777216 in float32. -/
def absorbedLoan : LoanInfo := ⟨"A", 0, 16777216, 0, 360, 1 / 2, 0⟩

/-- The state of the loop on `absorbedLoan` in month `t`. -/
def absorbedState (t : Int) : State :=
  { LoanInfos := [absorbedLoan], rollOver := 0, remainder := 0, dateTracker := t }

theorem skipped_eq_false_iff (t : Int) (v : LoanInfo) :
    skipped t v = false ↔ v.StartDate ≤ t ∧ 1 / 100 ≤ v.Amount := by
  simp [skipped]

theorem skipped_eq_true_iff (t : Int) (v : LoanInfo) :
    skipped t v = true ↔ t < v.StartDate ∨ v.Amount < 1 / 100 := by
  simp [skipped]

theorem applyPayment_nonneg (p a : ℚ) : 0 ≤ applyPayment p a := by
  unfold applyPayment
  split_ifs with h
  · exact le_refl 0
  · linarith [not_lt.mp h]

theorem payLoan_fst (t : Int) (v : LoanInfo) (p : Pools) :
    (payLoan t v p).1 = afterPayment t v := by
  unfold payLoan afterPayment payment
  split_ifs <;> rfl

theorem payLoan_remainder (t : Int) (v : LoanInfo) (p : Pools) :
    (payLoan t v p).2.remainder = p.remainder + overflow t v := by
  unfold payLoan overflow payment
  cases hs : skipped t v
  · by_cases hp : v.Payment + v.AdditionalPayment > v.Amount
    · simp only [hp, if_true]
      split_ifs <;> simp
    · simp only [hp, if_false]
      split_ifs <;> simp
  · simp

theorem payLoan_anyPositive (t : Int) (v : LoanInfo) (p : Pools) :
    (payLoan t v p).2.anyPositiveRemaining
      = (p.anyPositiveRemaining || staysPositive t v) := by
  unfold payLoan staysPositive afterPayment payment
  by_cases hs : skipped t v = true
  · simp [hs]
  · by_cases hp : v.Payment + v.AdditionalPayment > v.Amount
    · simp [hs, hp, applyPayment]
    · by_cases hq : v.Amount - (v.Payment + v.AdditionalPayment) > 0
      · simp [hs, hp, hq, applyPayment]
      · simp [hs, hp, hq, applyPayment]

theorem phaseA_fst (t : Int) (l : List LoanInfo) (p : Pools) :
    (phaseA t l p).1 = l.map (afterPayment t) := by
  induction l generalizing p with
  | nil => rfl
  | cons v vs ih => simp [phaseA, ih, payLoan_fst]

theorem phaseA_remainder (t : Int) (l : List LoanInfo) (p : Pools) :
    (phaseA t l p).2.remainder = p.remainder + (l.map (overflow t)).sum := by
  induction l generalizing p with
  | nil => simp [phaseA]
  | cons v vs ih => simp [phaseA, ih, payLoan_remainder, add_assoc]

theorem phaseA_anyPositive (t : Int) (l : List LoanInfo) (p : Pools) :
    (phaseA t l p).2.anyPositiveRemaining
      = (p.anyPositiveRemaining || l.any (staysPositive t)) := by
  induction l generalizing p with
  | nil => simp [phaseA]
  | cons v vs ih => simp [phaseA, ih, payLoan_anyPositive, Bool.or_assoc]

/-! ## The redirect to the highest interest rate -/

theorem skipped_false_iff_active (t : Int) (v : LoanInfo) :
    skipped t v = false ↔ active t v := skipped_eq_false_iff t v

theorem not_active_iff_skipped (t : Int) (v : LoanInfo) :
    ¬ active t v ↔ skipped t v = true := by
  rw [← skipped_false_iff_active]; simp

/-- What the search loop returns: either nothing beats the rate it started with,
or it returns the first position holding the greatest rate among the loans it
does not skip. -/
theorem findHighest_spec (t : Int) (l : List LoanInfo) (i : Nat) (best : Nat × ℚ) :
    (findHighest t l i best = best ∧
        ∀ v ∈ l, skipped t v = false → v.InterestRate ≤ best.2) ∨
    (∃ (k : Nat) (v : LoanInfo), l[k]? = some v ∧ findHighest t l i best = (i + k, v.InterestRate) ∧
        skipped t v = false ∧ best.2 < v.InterestRate ∧
        (∀ (j : Nat) (w : LoanInfo), l[j]? = some w → skipped t w = false → w.InterestRate ≤ v.InterestRate) ∧
        (∀ (j : Nat) (w : LoanInfo), l[j]? = some w → skipped t w = false → j < k →
            w.InterestRate < v.InterestRate)) := by
  induction l generalizing i best with
  | nil => left; simp [findHighest]
  | cons v vs ih =>
    have hbest : ∀ b : Nat × ℚ,
        b = (if skipped t v then best
             else if v.InterestRate > best.2 then (i, v.InterestRate) else best) →
        best.2 ≤ b.2 ∧ (skipped t v = false → v.InterestRate ≤ b.2) := by
      intro b hb
      subst hb
      cases hs : skipped t v
      · by_cases hr : v.InterestRate > best.2
        · simp [hr, le_of_lt hr]
        · simp [hr, not_lt.mp hr]
      · simp
    rcases ih (i + 1) (if skipped t v then best
             else if v.InterestRate > best.2 then (i, v.InterestRate) else best) with
      ⟨heq, hall⟩ | ⟨k, w, hk, heq, hsk, hlt, hmax, hfirst⟩
    · cases hs : skipped t v
      · by_cases hr : v.InterestRate > best.2
        · right
          refine ⟨0, v, by simp, ?_, hs, hr, ?_, ?_⟩
          · simp only [findHighest]
            rw [heq]; simp [hs, hr]
          · intro j w hj hw
            cases j with
            | zero => simp at hj; subst hj; exact le_refl _
            | succ j =>
              simp at hj
              have := hall w (List.getElem?_mem hj) hw
              simpa [hs, hr] using this
          · intro j w _ _ hj
            exact absurd hj (Nat.not_lt_zero j)
        · left
          refine ⟨?_, ?_⟩
          · simp only [findHighest]
            rw [heq]; simp [hs, hr]
          · intro w hw hws
            rcases List.mem_cons.mp hw with rfl | hw
            · exact not_lt.mp hr
            · simpa [hs, hr] using hall w hw hws
      · left
        refine ⟨?_, ?_⟩
        · simp only [findHighest]
          rw [heq]; simp [hs]
        · intro w hw hws
          rcases List.mem_cons.mp hw with rfl | hw
          · rw [hs] at hws; exact absurd hws (by simp)
          · simpa [hs] using hall w hw hws
    · right
      obtain ⟨hb1, hb2⟩ := hbest _ rfl
      refine ⟨k + 1, w, by simpa using hk, ?_, hsk, lt_of_le_of_lt hb1 hlt, ?_, ?_⟩
      · simp only [findHighest]
        rw [heq]
        congr 1
        omega
      · intro j u hj hu
        cases j with
        | zero =>
          simp at hj; subst hj
          exact le_of_lt (lt_of_le_of_lt (hb2 hu) hlt)
        | succ j => exact hmax j u (by simpa using hj) hu
      · intro j u hj hu hjk
        cases j with
        | zero =>
          simp at hj; subst hj
          exact lt_of_le_of_lt (hb2 hu) hlt
        | succ j => exact hfirst j u (by simpa using hj) hu (by omega)

/-- The search run by the redirect: either no unskipped loan has a rate above
zero and the result is `(0, 0)`, or the result is the first position of the
greatest rate among the unskipped loans, and that rate is above zero. -/
theorem highestInterest_spec (t : Int) (l : List LoanInfo) :
    (highestInterest t l = (0, 0) ∧
        ∀ v ∈ l, skipped t v = false → v.InterestRate ≤ 0) ∨
    (∃ (k : Nat) (v : LoanInfo), l[k]? = some v ∧ highestInterest t l = (k, v.InterestRate) ∧
        skipped t v = false ∧ 0 < v.InterestRate ∧
        (∀ (j : Nat) (w : LoanInfo), l[j]? = some w → skipped t w = false → w.InterestRate ≤ v.InterestRate) ∧
        (∀ (j : Nat) (w : LoanInfo), l[j]? = some w → skipped t w = false → j < k →
            w.InterestRate < v.InterestRate)) := by
  unfold highestInterest
  rcases findHighest_spec t l 0 (0, 0) with h | ⟨k, v, hk, heq, h⟩
  · exact Or.inl h
  · exact Or.inr ⟨k, v, hk, by simpa using heq, h⟩

theorem redirects_false_of_all_skipped (t : Int) (l : List LoanInfo) (rem roll : ℚ)
    (h : ∀ v ∈ l, skipped t v = true) : redirects t l rem roll = false := by
  rcases highestInterest_spec t l with ⟨heq, _⟩ | ⟨k, v, hk, _, hs, _⟩
  · simp [redirects, heq]
  · have := h v (List.getElem?_mem hk)
    rw [hs] at this
    exact absurd this (by simp)

theorem phaseB_of_not_redirects (t : Int) (l : List LoanInfo) (rem roll : ℚ)
    (h : redirects t l rem roll = false) : phaseB t l rem roll = (l, rem) := by
  simp [phaseB, h]

/-- When the redirect pays, it pays the loan the search returned. -/
theorem phaseB_of_redirects (t : Int) (l : List LoanInfo) (rem roll : ℚ)
    (h : redirects t l rem roll = true) :
    ∃ (k : Nat) (v : LoanInfo), l[k]? = some v ∧ highestInterest t l = (k, v.InterestRate) ∧
      skipped t v = false ∧ 0 < v.InterestRate ∧
      (∀ (j : Nat) (w : LoanInfo), l[j]? = some w → skipped t w = false → w.InterestRate ≤ v.InterestRate) ∧
      (∀ (j : Nat) (w : LoanInfo), l[j]? = some w → skipped t w = false → j < k →
          w.InterestRate < v.InterestRate) ∧
      phaseB t l rem roll =
        (l.set k { v with Amount := applyPayment (rem + roll) v.Amount },
          if rem + roll > v.Amount then rem + roll - v.Amount else 0) := by
  rcases highestInterest_spec t l with ⟨heq, _⟩ | ⟨k, v, hk, heq, hs, hpos, hmax, hfirst⟩
  · simp [redirects, heq] at h
  · refine ⟨k, v, hk, heq, hs, hpos, hmax, hfirst, ?_⟩
    simp only [phaseB, h, if_true, heq, hk]

/-! ## One month: stop rule and conservation -/

theorem monthBody_eq (s : State) :
    monthBody s =
      ({ LoanInfos := (phaseB s.dateTracker (afterPhaseA s).1 (afterPhaseA s).2.remainder
            (afterPhaseA s).2.rollOver).1,
         rollOver := (afterPhaseA s).2.rollOver,
         remainder := (phaseB s.dateTracker (afterPhaseA s).1 (afterPhaseA s).2.remainder
            (afterPhaseA s).2.rollOver).2,
         dateTracker := s.dateTracker }, (afterPhaseA s).2.anyPositiveRemaining) := rfl

theorem afterPhaseA_fst (s : State) :
    (afterPhaseA s).1 = s.LoanInfos.map (afterPayment s.dateTracker) :=
  phaseA_fst _ _ _

theorem afterPhaseA_anyPositive (s : State) :
    (afterPhaseA s).2.anyPositiveRemaining = s.LoanInfos.any (staysPositive s.dateTracker) := by
  unfold afterPhaseA
  rw [phaseA_anyPositive]
  simp

theorem afterPhaseA_remainder (s : State) :
    (afterPhaseA s).2.remainder
      = s.remainder + (s.LoanInfos.map (overflow s.dateTracker)).sum :=
  phaseA_remainder _ _ _

/-- A loan that does not set `anyPositiveRemaining` is skipped once the payment
loop is over: either it was skipped already or its balance is now zero. -/
theorem skipped_afterPayment_of_not_staysPositive (t : Int) (v : LoanInfo)
    (h : staysPositive t v = false) : skipped t (afterPayment t v) = true := by
  cases hs : skipped t v
  · have hle : ¬ (afterPayment t v).Amount > 0 := by
      simpa [staysPositive, hs] using h
    have hstart : (afterPayment t v).StartDate = v.StartDate := by
      simp [afterPayment, hs]
    rw [skipped_eq_true_iff]
    right
    linarith [not_lt.mp hle]
  · simp [afterPayment, hs]

theorem all_skipped_of_not_anyPositive (s : State)
    (h : (afterPhaseA s).2.anyPositiveRemaining = false) :
    ∀ v ∈ (afterPhaseA s).1, skipped s.dateTracker v = true := by
  rw [afterPhaseA_anyPositive] at h
  rw [afterPhaseA_fst]
  intro v hv
  obtain ⟨u, hu, rfl⟩ := List.mem_map.mp hv
  apply skipped_afterPayment_of_not_staysPositive
  have := List.any_eq_false.mp h u hu
  simp at this
  simp [this]

theorem sum_map_set (f : LoanInfo → ℚ) (l : List LoanInfo) (k : Nat) (v x : LoanInfo)
    (hk : l[k]? = some v) : ((l.set k x).map f).sum = (l.map f).sum - f v + f x := by
  induction l generalizing k with
  | nil => simp at hk
  | cons a as ih =>
    cases k with
    | zero =>
      simp at hk
      subst hk
      simp
      ring
    | succ k =>
      simp at hk
      have := ih k hk
      simp only [List.set_cons_succ, List.map_cons, List.sum_cons, this]
      ring

theorem sum_filter_active (t : Int) (l : List LoanInfo) :
    ((l.filter (fun v => !skipped t v)).map payment).sum
      = (l.map (fun v => if skipped t v then 0 else payment v)).sum := by
  induction l with
  | nil => rfl
  | cons v vs ih =>
    cases hs : skipped t v <;> simp [List.filter, hs, ih]

theorem payLoan_conserves (t : Int) (v : LoanInfo) :
    v.Amount - (afterPayment t v).Amount + overflow t v
      = if skipped t v then 0 else payment v := by
  unfold afterPayment overflow applyPayment
  cases hs : skipped t v
  · by_cases hp : payment v > v.Amount
    · simp [hp]
    · simp [hp]
  · simp

theorem phaseA_conserves (t : Int) (l : List LoanInfo) :
    (l.map (fun v => v.Amount)).sum - ((l.map (afterPayment t)).map (fun v => v.Amount)).sum
        + (l.map (overflow t)).sum
      = ((l.filter (fun v => !skipped t v)).map payment).sum := by
  rw [sum_filter_active]
  induction l with
  | nil => simp
  | cons v vs ih =>
    have h := payLoan_conserves t v
    simp only [List.map_cons, List.sum_cons] at ih ⊢
    linarith

theorem phaseB_conserves (t : Int) (l : List LoanInfo) (rem roll : ℚ) :
    (l.map (fun v => v.Amount)).sum - ((phaseB t l rem roll).1.map (fun v => v.Amount)).sum
        + ((phaseB t l rem roll).2 - rem)
      = if redirects t l rem roll then roll else 0 := by
  cases hr : redirects t l rem roll
  · simp [phaseB_of_not_redirects t l rem roll hr]
  · obtain ⟨k, v, hk, _, _, _, _, _, heq⟩ := phaseB_of_redirects t l rem roll hr
    rw [heq]
    simp only [sum_map_set (fun v => v.Amount) l k v _ hk, applyPayment, if_true]
    by_cases hp : rem + roll > v.Amount
    · simp [hp]
      ring
    · simp [hp]

/-- When the payment loop leaves `anyPositiveRemaining` false, the redirect
finds every loan skipped and changes neither a loan nor the remainder. -/
theorem monthBody_of_stop (s : State) (h : (monthBody s).2 = false) :
    (∀ v ∈ (afterPhaseA s).1, skipped s.dateTracker v = true) ∧
    redirects s.dateTracker (afterPhaseA s).1 (afterPhaseA s).2.remainder
      (afterPhaseA s).2.rollOver = false ∧
    (monthBody s).1.LoanInfos = (afterPhaseA s).1 ∧
    (monthBody s).1.remainder = (afterPhaseA s).2.remainder := by
  rw [monthBody_eq] at h
  simp only at h
  have hall := all_skipped_of_not_anyPositive s h
  have hred := redirects_false_of_all_skipped _ _ (afterPhaseA s).2.remainder
    (afterPhaseA s).2.rollOver hall
  refine ⟨hall, hred, ?_, ?_⟩
  · rw [monthBody_eq]
    simp only [phaseB_of_not_redirects _ _ _ _ hred]
  · rw [monthBody_eq]
    simp only [phaseB_of_not_redirects _ _ _ _ hred]

/-! ## Claims about a single month -/

/-- C5. Avalanche target and tie-break.  In a redirect entered with
`remainder > 0` or `rollOver > 0`: if some active loan has a rate above zero,
the loan that receives `remainder + rollOver` is an active loan whose rate is
the greatest among the active loans and whose index is the lowest among those
of that rate; its balance becomes zero when the amount exceeds it and is
reduced by the amount otherwise; every other position is left as it was.  If no
active loan has a rate above zero, the redirect changes no loan. -/
theorem phaseB_pays_first_highest_rate (t : Int) (loans : List LoanInfo)
    (remainder rollOver : ℚ) (hpool : remainder > 0 ∨ rollOver > 0) :
    ((∃ v ∈ loans, active t v ∧ v.InterestRate > 0) →
      ∃ (i : Nat) (v : LoanInfo), loans[i]? = some v ∧ active t v ∧
        (∀ (j : Nat) (w : LoanInfo), loans[j]? = some w → active t w →
          w.InterestRate ≤ v.InterestRate ∧ (w.InterestRate = v.InterestRate → i ≤ j)) ∧
        (phaseB t loans remainder rollOver).1[i]? =
          some { v with Amount := if remainder + rollOver > v.Amount then 0
                                  else v.Amount - (remainder + rollOver) } ∧
        (∀ j : Nat, j ≠ i → (phaseB t loans remainder rollOver).1[j]? = loans[j]?)) ∧
    ((¬ ∃ v ∈ loans, active t v ∧ v.InterestRate > 0) →
      (phaseB t loans remainder rollOver).1 = loans) := by
  have hgate : (decide (remainder > 0) || decide (rollOver > 0)) = true := by
    rcases hpool with h | h <;> simp [h]
  constructor
  · rintro ⟨u, hu, hact, hrate⟩
    have hred : redirects t loans remainder rollOver = true := by
      rcases highestInterest_spec t loans with ⟨_, hall⟩ | ⟨k, v, _, heq, _, hpos, _⟩
      · have := hall u hu ((skipped_false_iff_active t u).mpr hact)
        exact absurd hrate (not_lt.mpr this)
      · simp [redirects, hgate, heq, hpos]
    obtain ⟨k, v, hk, _, hs, _, hmax, hfirst, heq⟩ :=
      phaseB_of_redirects t loans remainder rollOver hred
    have hklt : k < loans.length := by
      by_contra hge
      rw [List.getElem?_eq_none (not_lt.mp hge)] at hk
      exact absurd hk (by simp)
    refine ⟨k, v, hk, (skipped_false_iff_active t v).mp hs, ?_, ?_, ?_⟩
    · intro j w hj hw
      have hws := (skipped_false_iff_active t w).mpr hw
      refine ⟨hmax j w hj hws, fun hrw => ?_⟩
      by_contra hlt
      have := hfirst j w hj hws (not_le.mp hlt)
      rw [hrw] at this
      exact lt_irrefl _ this
    · rw [heq]
      simp [List.getElem?_set, hklt, applyPayment]
    · intro j hj
      rw [heq]
      exact List.getElem?_set_ne (Ne.symm hj)
  · intro hnone
    have hred : redirects t loans remainder rollOver = false := by
      by_contra hne
      obtain ⟨k, v, hk, _, hs, hpos, _⟩ :=
        phaseB_of_redirects t loans remainder rollOver (by simpa using hne)
      exact hnone ⟨v, List.getElem?_mem hk, (skipped_false_iff_active t v).mp hs, hpos⟩
    rw [phaseB_of_not_redirects t loans remainder rollOver hred]

/-- Witness for C5: three loans at rates 5 %, 9 % and 9 %, all active, and a
rollover of 100; the hypotheses hold, some active loan has a rate above zero,
and the balances after the redirect are 500, 600 and 900. -/
theorem phaseB_pays_first_highest_rate_witness :
    ((0 : ℚ) > 0 ∨ (100 : ℚ) > 0) ∧
    (∃ v ∈ tieLoans, active 0 v ∧ v.InterestRate > 0) ∧
    (phaseB 0 tieLoans 0 100).1.map (fun v => v.Amount) = [500, 600, 900] ∧
    ∃ (i : Nat) (v : LoanInfo), tieLoans[i]? = some v ∧ active 0 v ∧
      (∀ (j : Nat) (w : LoanInfo), tieLoans[j]? = some w → active 0 w →
        w.InterestRate ≤ v.InterestRate ∧ (w.InterestRate = v.InterestRate → i ≤ j)) ∧
      (phaseB 0 tieLoans 0 100).1[i]? =
        some { v with Amount := if (0 : ℚ) + 100 > v.Amount then 0
                                else v.Amount - (0 + 100) } ∧
      (∀ j : Nat, j ≠ i → (phaseB 0 tieLoans 0 100).1[j]? = tieLoans[j]?) :=
  have hpool : (0 : ℚ) > 0 ∨ (100 : ℚ) > 0 := Or.inr (by norm_num)
  have hex : ∃ v ∈ tieLoans, active 0 v ∧ v.InterestRate > 0 :=
    ⟨⟨"a", 0, 500, 5 / 100, 12, 50, 0⟩, by simp [tieLoans], by norm_num [active], by norm_num⟩
  ⟨hpool, hex,
    by norm_num [phaseB, redirects, highestInterest, findHighest, skipped, applyPayment,
        tieLoans],
    (phaseB_pays_first_highest_rate 0 tieLoans 0 100 hpool).1 hex⟩

/-- C9. Stop rule.  The test the loop makes (`anyPositiveRemaining` is false)
and the test of Phase D (`any_positive` is false and the redirect created no new
remainder) agree in every state; and whenever no loan paid by the payment loop
keeps a balance above zero, the redirect finds every loan skipped, changes no
loan and leaves the remainder as the payment loop left it. -/
theorem stop_rule_agrees (s : State) :
    specStop s = codeStop s ∧
    ((monthBody s).2 = false →
      (∀ v ∈ (afterPhaseA s).1, skipped s.dateTracker v = true) ∧
      (monthBody s).1.LoanInfos = (afterPhaseA s).1 ∧
      (monthBody s).1.remainder = (afterPhaseA s).2.remainder) := by
  constructor
  · unfold specStop codeStop
    cases h : (monthBody s).2
    · have hred := (monthBody_of_stop s h).2.1
      rw [monthBody_eq] at h
      simp only at h
      simp [redirectOverflows, hred, h]
    · rw [monthBody_eq] at h
      simp only at h
      simp [h]
  · intro h
    obtain ⟨hall, _, hl, hr⟩ := monthBody_of_stop s h
    exact ⟨hall, hl, hr⟩

/-- Conservation within a month in exact arithmetic.  The total by which the
balances fall in the payment loop and the redirect, plus the change of
`remainder` over the month, equals the sum of `Payment + AdditionalPayment`
over the loans active in the payment loop plus the rollover applied by the
redirect (the value of `rollOver` when the redirect pays a loan, zero
otherwise). -/
theorem month_conserves_payments_exact (s : State) :
    ((s.LoanInfos.map (fun v => v.Amount)).sum
        - ((monthBody s).1.LoanInfos.map (fun v => v.Amount)).sum)
      + ((monthBody s).1.remainder - s.remainder)
    = ((s.LoanInfos.filter (fun v => !skipped s.dateTracker v)).map
          (fun v => v.Payment + v.AdditionalPayment)).sum
      + (if redirects s.dateTracker (afterPhaseA s).1 (afterPhaseA s).2.remainder
            (monthBody s).1.rollOver then (monthBody s).1.rollOver else 0) := by
  have hA := phaseA_conserves s.dateTracker s.LoanInfos
  have hB := phaseB_conserves s.dateTracker (afterPhaseA s).1 (afterPhaseA s).2.remainder
    (afterPhaseA s).2.rollOver
  have hrem := afterPhaseA_remainder s
  rw [afterPhaseA_fst] at hB
  rw [monthBody_eq]
  simp only
  rw [afterPhaseA_fst]
  have hpay : (fun v : LoanInfo => v.Payment + v.AdditionalPayment) = payment := rfl
  rw [hpay]
  linarith

/-! ## The loop as a sequence of months -/

theorem simulate_zero (addMonth : Int → Int) (s : State) :
    simulate addMonth 0 s = ([], false) := rfl

theorem simulate_succ_stop (addMonth : Int → Int) (fuel : Nat) (s : State)
    (h : (monthBody s).2 = false) :
    simulate addMonth (fuel + 1) s = ([snapshot (monthBody s).1], true) := by
  simp [simulate, h]

theorem simulate_succ_continue (addMonth : Int → Int) (fuel : Nat) (s : State)
    (h : (monthBody s).2 = true) :
    simulate addMonth (fuel + 1) s
      = (snapshot (monthBody s).1 :: (simulate addMonth fuel (nextMonth addMonth s)).1,
          (simulate addMonth fuel (nextMonth addMonth s)).2) := by
  simp [simulate, h, nextMonth]

theorem stateAt_succ (addMonth : Int → Int) (s : State) (k : Nat) :
    stateAt addMonth s (k + 1) = stateAt addMonth (nextMonth addMonth s) k := by
  simp [stateAt, Function.iterate_succ_apply]

theorem stateAt_succ_outer (addMonth : Int → Int) (s : State) (k : Nat) :
    stateAt addMonth s (k + 1) = nextMonth addMonth (stateAt addMonth s k) := by
  simp [stateAt, Function.iterate_succ_apply']

theorem stateAt_add (addMonth : Int → Int) (s : State) (m n : Nat) :
    stateAt addMonth s (m + n) = stateAt addMonth (stateAt addMonth s n) m := by
  simp [stateAt, Function.iterate_add_apply]

/-- Row `k` of the result is the snapshot taken in month `k`. -/
theorem simulate_row (addMonth : Int → Int) (fuel : Nat) (s : State) (k : Nat)
    (row : Int × List ℚ) (h : (simulate addMonth fuel s).1[k]? = some row) :
    row = snapshot (monthBody (stateAt addMonth s k)).1 := by
  induction fuel generalizing s k with
  | zero => simp [simulate] at h
  | succ n ih =>
    cases hb : (monthBody s).2
    · rw [simulate_succ_stop addMonth n s hb] at h
      cases k with
      | zero => simpa [stateAt] using h.symm
      | succ k => simp at h
    · rw [simulate_succ_continue addMonth n s hb] at h
      cases k with
      | zero => simpa [stateAt] using h.symm
      | succ k =>
        rw [stateAt_succ]
        exact ih (nextMonth addMonth s) k (by simpa using h)

/-- A row is recorded in month `k` only when the loop has not stopped in an
earlier month. -/
theorem simulate_row_continues (addMonth : Int → Int) (fuel : Nat) (s : State) (k : Nat)
    (row : Int × List ℚ) (h : (simulate addMonth fuel s).1[k]? = some row) :
    ∀ j, j < k → (monthBody (stateAt addMonth s j)).2 = true := by
  induction fuel generalizing s k with
  | zero => simp [simulate] at h
  | succ n ih =>
    cases hb : (monthBody s).2
    · rw [simulate_succ_stop addMonth n s hb] at h
      cases k with
      | zero => intro j hj; exact absurd hj (Nat.not_lt_zero j)
      | succ k => simp at h
    · rw [simulate_succ_continue addMonth n s hb] at h
      cases k with
      | zero => intro j hj; exact absurd hj (Nat.not_lt_zero j)
      | succ k =>
        intro j hj
        cases j with
        | zero => simpa [stateAt] using hb
        | succ j =>
          rw [stateAt_succ]
          exact ih (nextMonth addMonth s) k (by simpa using h) j (by omega)

/-! ## What a month does to one loan -/

theorem afterPayment_of_skipped (t : Int) (v : LoanInfo) (h : skipped t v = true) :
    afterPayment t v = v := by
  simp [afterPayment, h]

theorem afterPayment_fields (t : Int) (v : LoanInfo) :
    (afterPayment t v).StartDate = v.StartDate ∧
    (afterPayment t v).InterestRate = v.InterestRate ∧
    (afterPayment t v).Payment = v.Payment ∧
    (afterPayment t v).AdditionalPayment = v.AdditionalPayment := by
  cases h : skipped t v <;> simp [afterPayment, h]

theorem afterPayment_amount_nonneg (t : Int) (v : LoanInfo) (h : 0 ≤ v.Amount) :
    0 ≤ (afterPayment t v).Amount := by
  cases hs : skipped t v
  · simp [afterPayment, hs, applyPayment_nonneg]
  · simpa [afterPayment, hs] using h

/-- Position `k` of the loans after the payment loop and the redirect. -/
theorem monthBody_loan (s : State) (k : Nat) (v : LoanInfo) (h : s.LoanInfos[k]? = some v) :
    ∃ w, (monthBody s).1.LoanInfos[k]? = some w ∧
      monthResult s.dateTracker ((afterPhaseA s).2.remainder + (afterPhaseA s).2.rollOver) v w := by
  rw [monthBody_eq]
  simp only
  have hA : (afterPhaseA s).1[k]? = some (afterPayment s.dateTracker v) := by
    rw [afterPhaseA_fst]; simp [h]
  cases hr : redirects s.dateTracker (afterPhaseA s).1 (afterPhaseA s).2.remainder
      (afterPhaseA s).2.rollOver
  · rw [phaseB_of_not_redirects _ _ _ _ hr]
    exact ⟨_, hA, Or.inl rfl⟩
  · obtain ⟨i, u, hi, _, hs, _, _, _, heq⟩ := phaseB_of_redirects _ _ _ _ hr
    rw [heq]
    by_cases hik : i = k
    · subst hik
      rw [hA] at hi
      have hu : u = afterPayment s.dateTracker v := (Option.some.inj hi).symm
      subst hu
      have hlt : i < (afterPhaseA s).1.length := by
        by_contra hge
        rw [List.getElem?_eq_none (not_lt.mp hge)] at hA
        exact absurd hA (by simp)
      refine ⟨_, ?_, Or.inr ⟨hs, rfl⟩⟩
      simp [List.getElem?_set, hlt]
    · refine ⟨_, ?_, Or.inl rfl⟩
      simp only
      rw [List.getElem?_set_ne hik]
      exact hA

theorem monthBody_length (s : State) : (monthBody s).1.LoanInfos.length = s.LoanInfos.length := by
  rw [monthBody_eq]
  simp only
  cases hr : redirects s.dateTracker (afterPhaseA s).1 (afterPhaseA s).2.remainder
      (afterPhaseA s).2.rollOver
  · rw [phaseB_of_not_redirects _ _ _ _ hr, afterPhaseA_fst]; simp
  · obtain ⟨i, u, _, _, _, _, _, _, heq⟩ := phaseB_of_redirects _ _ _ _ hr
    rw [heq, afterPhaseA_fst]; simp

theorem monthBody_dateTracker (s : State) : (monthBody s).1.dateTracker = s.dateTracker := rfl

/-- Every loan after the month comes from the loan at the same position. -/
theorem monthBody_loan_of_mem (s : State) (w : LoanInfo) (h : w ∈ (monthBody s).1.LoanInfos) :
    ∃ v ∈ s.LoanInfos,
      monthResult s.dateTracker ((afterPhaseA s).2.remainder + (afterPhaseA s).2.rollOver) v w := by
  obtain ⟨k, hk⟩ := List.getElem?_of_mem h
  have hlt : k < s.LoanInfos.length := by
    rw [← monthBody_length]
    by_contra hge
    rw [List.getElem?_eq_none (not_lt.mp hge)] at hk
    exact absurd hk (by simp)
  have hv : s.LoanInfos[k]? = some (s.LoanInfos[k]) := List.getElem?_eq_getElem hlt
  obtain ⟨w', hw', hres⟩ := monthBody_loan s k _ hv
  rw [hk] at hw'
  have : w = w' := Option.some.inj hw'
  subst this
  exact ⟨_, List.getElem?_mem hv, hres⟩

theorem monthResult_fields (t : Int) (x : ℚ) (v w : LoanInfo) (h : monthResult t x v w) :
    w.StartDate = v.StartDate ∧ w.InterestRate = v.InterestRate ∧
    w.Payment = v.Payment ∧ w.AdditionalPayment = v.AdditionalPayment := by
  have hf := afterPayment_fields t v
  rcases h with rfl | ⟨_, rfl⟩
  · exact hf
  · exact hf

theorem monthResult_amount_nonneg (t : Int) (x : ℚ) (v w : LoanInfo) (h : monthResult t x v w)
    (hv : 0 ≤ v.Amount) : 0 ≤ w.Amount := by
  rcases h with rfl | ⟨_, rfl⟩
  · exact afterPayment_amount_nonneg t v hv
  · exact applyPayment_nonneg _ _

/-- A loan the payment loop skips and that stays skipped is not touched at all
during the month. -/
theorem monthResult_of_skipped (t : Int) (x : ℚ) (v w : LoanInfo) (h : monthResult t x v w)
    (hs : skipped t v = true) : w = v := by
  rw [monthResult, afterPayment_of_skipped t v hs] at h
  rcases h with rfl | ⟨hn, _⟩
  · rfl
  · rw [hs] at hn; exact absurd hn (by simp)

theorem nextMonth_loan (addMonth : Int → Int) (s : State) (k : Nat) (v : LoanInfo)
    (h : s.LoanInfos[k]? = some v) :
    ∃ w, (monthBody s).1.LoanInfos[k]? = some w ∧
      (nextMonth addMonth s).LoanInfos[k]? = some (accrueLoan w) ∧
      monthResult s.dateTracker ((afterPhaseA s).2.remainder + (afterPhaseA s).2.rollOver) v w := by
  obtain ⟨w, hw, hres⟩ := monthBody_loan s k v h
  exact ⟨w, hw, by simp [nextMonth, accrue, hw], hres⟩

theorem nextMonth_dateTracker (addMonth : Int → Int) (s : State) :
    (nextMonth addMonth s).dateTracker = addMonth s.dateTracker := rfl

theorem nextMonth_length (addMonth : Int → Int) (s : State) :
    (nextMonth addMonth s).LoanInfos.length = s.LoanInfos.length := by
  simp [nextMonth, accrue, monthBody_length]

/-! ## Invariants of the recorded rows -/

theorem phaseA_amount_nonneg (t : Int) (l : List LoanInfo) (p : Pools)
    (h : ∀ v ∈ l, 0 ≤ v.Amount) : ∀ v ∈ (phaseA t l p).1, 0 ≤ v.Amount := by
  rw [phaseA_fst]
  intro w hw
  obtain ⟨v, hv, rfl⟩ := List.mem_map.mp hw
  exact afterPayment_amount_nonneg t v (h v hv)

theorem phaseB_amount_nonneg (t : Int) (l : List LoanInfo) (rem roll : ℚ)
    (h : ∀ v ∈ l, 0 ≤ v.Amount) : ∀ v ∈ (phaseB t l rem roll).1, 0 ≤ v.Amount := by
  cases hr : redirects t l rem roll
  · rw [phaseB_of_not_redirects t l rem roll hr]; exact h
  · obtain ⟨k, u, _, _, _, _, _, _, heq⟩ := phaseB_of_redirects t l rem roll hr
    rw [heq]
    intro w hw
    rcases List.mem_or_eq_of_mem_set hw with hw | rfl
    · exact h w hw
    · exact applyPayment_nonneg _ _

theorem accrueLoan_amount_nonneg (v : LoanInfo) (ha : 0 ≤ v.Amount) (hr : 0 ≤ v.InterestRate) :
    0 ≤ (accrueLoan v).Amount := by
  have : 0 ≤ v.Amount * (v.InterestRate / 12) := mul_nonneg ha (by linarith)
  simp only [accrueLoan]
  linarith

/-- Balances and rates that are not negative stay so from one month to the
next. -/
theorem nextMonth_nonneg (addMonth : Int → Int) (s : State)
    (h : ∀ v ∈ s.LoanInfos, 0 ≤ v.Amount ∧ 0 ≤ v.InterestRate) :
    (∀ v ∈ (monthBody s).1.LoanInfos, 0 ≤ v.Amount ∧ 0 ≤ v.InterestRate) ∧
    (∀ v ∈ (nextMonth addMonth s).LoanInfos, 0 ≤ v.Amount ∧ 0 ≤ v.InterestRate) := by
  have hbody : ∀ v ∈ (monthBody s).1.LoanInfos, 0 ≤ v.Amount ∧ 0 ≤ v.InterestRate := by
    intro w hw
    obtain ⟨v, hv, hres⟩ := monthBody_loan_of_mem s w hw
    refine ⟨monthResult_amount_nonneg _ _ v w hres (h v hv).1, ?_⟩
    rw [(monthResult_fields _ _ v w hres).2.1]
    exact (h v hv).2
  refine ⟨hbody, ?_⟩
  intro w hw
  simp only [nextMonth, accrue, List.mem_map] at hw
  obtain ⟨v, hv, rfl⟩ := hw
  exact ⟨accrueLoan_amount_nonneg v (hbody v hv).1 (hbody v hv).2, (hbody v hv).2⟩

theorem stateAt_nonneg (addMonth : Int → Int) (s : State)
    (h : ∀ v ∈ s.LoanInfos, 0 ≤ v.Amount ∧ 0 ≤ v.InterestRate) (k : Nat) :
    ∀ v ∈ (stateAt addMonth s k).LoanInfos, 0 ≤ v.Amount ∧ 0 ≤ v.InterestRate := by
  induction k with
  | zero => exact h
  | succ k ih =>
    rw [stateAt_succ_outer]
    exact (nextMonth_nonneg addMonth _ ih).2

/-- C3. Non-negativity.  When every principal and every rate of the input is
non-negative (whatever the payments), every balance in every recorded row is
non-negative; and the payment loop, the redirect and the interest step each
keep balances non-negative. -/
theorem recorded_balances_nonneg (now : Int) (addMonth : Int → Int) (fuel : Nat)
    (loans : List LoanInfo) (h : ∀ v ∈ loans, 0 ≤ v.Amount ∧ 0 ≤ v.InterestRate) :
    (∀ row ∈ (resultData now addMonth fuel loans).1, ∀ b ∈ row.2, 0 ≤ b) ∧
    (∀ (t : Int) (l : List LoanInfo) (p : Pools), (∀ v ∈ l, 0 ≤ v.Amount) →
        ∀ v ∈ (phaseA t l p).1, 0 ≤ v.Amount) ∧
    (∀ (t : Int) (l : List LoanInfo) (rem roll : ℚ), (∀ v ∈ l, 0 ≤ v.Amount) →
        ∀ v ∈ (phaseB t l rem roll).1, 0 ≤ v.Amount) ∧
    (∀ v : LoanInfo, 0 ≤ v.Amount → 0 ≤ v.InterestRate → 0 ≤ (accrueLoan v).Amount) := by
  refine ⟨?_, phaseA_amount_nonneg, phaseB_amount_nonneg, accrueLoan_amount_nonneg⟩
  intro row hrow b hb
  obtain ⟨k, hk⟩ := List.getElem?_of_mem hrow
  have hr := simulate_row addMonth fuel (initState now loans) k row hk
  have hs := stateAt_nonneg addMonth (initState now loans) h k
  subst hr
  simp only [snapshot, List.mem_map] at hb
  obtain ⟨v, hv, rfl⟩ := hb
  exact ((nextMonth_nonneg addMonth _ hs).1 v hv).1

/-- Witness for C3: the loans of Scenario 2, run for five months. -/
theorem recorded_balances_nonneg_witness :
    (∀ v ∈ scenario2, 0 ≤ v.Amount ∧ 0 ≤ v.InterestRate) ∧
    (∀ row ∈ (resultData 10 (fun t => t + 1) 5 scenario2).1, ∀ b ∈ row.2, 0 ≤ b) :=
  have h : ∀ v ∈ scenario2, 0 ≤ v.Amount ∧ 0 ≤ v.InterestRate := by
    intro v hv
    simp only [scenario2, List.mem_cons, List.mem_singleton, List.not_mem_nil, or_false] at hv
    rcases hv with rfl | rfl <;> norm_num
  ⟨h, (recorded_balances_nonneg 10 (fun t => t + 1) 5 scenario2 h).1⟩

/-- A balance that is zero when a month is entered is zero in that month's
snapshot and when the next month is entered. -/
theorem zero_through_month (addMonth : Int → Int) (s : State) (k : Nat) (v : LoanInfo)
    (h : s.LoanInfos[k]? = some v) (hz : v.Amount = 0) :
    (monthBody s).1.LoanInfos[k]? = some v ∧
    (nextMonth addMonth s).LoanInfos[k]? = some (accrueLoan v) ∧ (accrueLoan v).Amount = 0 := by
  obtain ⟨w, hw, hn, hres⟩ := nextMonth_loan addMonth s k v h
  have hs : skipped s.dateTracker v = true := by
    rw [skipped_eq_true_iff]; right; rw [hz]; norm_num
  have hwv := monthResult_of_skipped _ _ v w hres hs
  subst hwv
  exact ⟨hw, hn, by simp [accrueLoan, hz]⟩

theorem zero_stateAt (addMonth : Int → Int) (s : State) (k : Nat) (v : LoanInfo)
    (h : s.LoanInfos[k]? = some v) (hz : v.Amount = 0) (m : Nat) :
    ∃ w, (stateAt addMonth s m).LoanInfos[k]? = some w ∧ w.Amount = 0 := by
  induction m with
  | zero => exact ⟨v, h, hz⟩
  | succ m ih =>
    obtain ⟨w, hw, hwz⟩ := ih
    rw [stateAt_succ_outer]
    obtain ⟨_, hn, hnz⟩ := zero_through_month addMonth _ k w hw hwz
    exact ⟨_, hn, hnz⟩

/-- C7. Zero stays zero.  If the balance recorded for a loan in some row is
exactly zero, the balance recorded for it in every later row is zero. -/
theorem zero_balance_stays_zero (now : Int) (addMonth : Int → Int) (fuel : Nat)
    (loans : List LoanInfo) (i j k : Nat) (ri rj : Int × List ℚ) (hij : i ≤ j)
    (hi : (resultData now addMonth fuel loans).1[i]? = some ri)
    (hj : (resultData now addMonth fuel loans).1[j]? = some rj)
    (hz : ri.2[k]? = some 0) : rj.2[k]? = some 0 := by
  rcases Nat.eq_or_lt_of_le hij with rfl | hlt
  · rw [hi] at hj
    rw [← Option.some.inj hj]; exact hz
  · have hri := simulate_row addMonth fuel (initState now loans) i ri hi
    have hrj := simulate_row addMonth fuel (initState now loans) j rj hj
    subst hri hrj
    simp only [snapshot, List.getElem?_map, Option.map_eq_some'] at hz ⊢
    obtain ⟨w, hw, hwz⟩ := hz
    obtain ⟨m, rfl⟩ : ∃ m, j = m + (i + 1) := ⟨j - (i + 1), by omega⟩
    have hnext : (stateAt addMonth (initState now loans) (i + 1)).LoanInfos[k]?
        = some (accrueLoan w) := by
      rw [stateAt_succ_outer]
      simp [nextMonth, accrue, hw]
    have hnz : (accrueLoan w).Amount = 0 := by simp [accrueLoan, hwz]
    obtain ⟨u, hu, huz⟩ := zero_stateAt addMonth _ k _ hnext hnz m
    rw [← stateAt_add] at hu
    exact ⟨u, (zero_through_month addMonth _ k u hu huz).1, huz⟩

/-- Witness for C7: in Scenario 2 loan A is at zero in the first row and in the
third. -/
theorem zero_balance_stays_zero_witness :
    (resultData 10 (fun t => t + 1) 3 scenario2).1[0]? = some (0, [0, 950]) ∧
    (resultData 10 (fun t => t + 1) 3 scenario2).1[2]?
      = some (2, [0, 173719 / 200]) ∧
    ((2, [0, 173719 / 200]) : Int × List ℚ).2[0]? = some 0 :=
  have h0 : (resultData 10 (fun t => t + 1) 3 scenario2).1[0]? = some (0, [0, 950]) := by
    norm_num [resultData, simulate, initState, earliestStart, scenario2, monthBody, phaseA,
      payLoan, skipped, applyPayment, phaseB, redirects, highestInterest, findHighest,
      snapshot, accrue, accrueLoan]
  have h2 : (resultData 10 (fun t => t + 1) 3 scenario2).1[2]?
      = some (2, [0, 173719 / 200]) := by
    norm_num [resultData, simulate, initState, earliestStart, scenario2, monthBody, phaseA,
      payLoan, skipped, applyPayment, phaseB, redirects, highestInterest, findHighest,
      snapshot, accrue, accrueLoan]
  ⟨h0, h2, zero_balance_stays_zero 10 (fun t => t + 1) 3 scenario2 0 2 0 _ _ (by decide) h0 h2
    (by simp)⟩

/-! ## The program on concrete inputs -/

theorem scenario2_after_payments :
    (afterPhaseA (initState 10 scenario2)).1.map (fun v => v.Amount) = [0, 950] ∧
    (afterPhaseA (initState 10 scenario2)).2.rollOver = 0 ∧
    (afterPhaseA (initState 10 scenario2)).2.remainder = 0 := by
  refine ⟨?_, ?_, ?_⟩ <;>
  norm_num [afterPhaseA, initState, earliestStart, scenario2, phaseA, payLoan, skipped,
    applyPayment]

/-- C4. Scenario 2 on the program.  Loan A's payment of 100 brings its balance
of 100 to zero, yet `rollOver` is still zero after the payment loop (the test
of line 177 is `payment > v.Amount`, false for equal amounts), the redirect
does not pay, and the first recorded row shows B at 950, not at 850. -/
theorem scenario2_first_row :
    (afterPhaseA (initState 10 scenario2)).1.map (fun v => v.Amount) = [0, 950] ∧
    (afterPhaseA (initState 10 scenario2)).2.rollOver = 0 ∧
    redirects 0 (afterPhaseA (initState 10 scenario2)).1
      (afterPhaseA (initState 10 scenario2)).2.remainder
      (afterPhaseA (initState 10 scenario2)).2.rollOver = false ∧
    (resultData 10 (fun t => t + 1) 1 scenario2).1 = [(0, [0, 950])] := by
  refine ⟨scenario2_after_payments.1, scenario2_after_payments.2.1, ?_, ?_⟩ <;>
  norm_num [afterPhaseA, resultData, simulate, initState, earliestStart, scenario2, monthBody,
    phaseA, payLoan, skipped, applyPayment, phaseB, redirects, highestInterest, findHighest,
    snapshot]

theorem delayedStart_run :
    (resultData 10 (fun t => t + 1) 3 delayedStart).1
      = [(0, [900, 1200]), (1, [800, 1212]), (2, [700, 122412 / 100])] := by
  norm_num [resultData, simulate, initState, earliestStart, delayedStart, monthBody,
    phaseA, payLoan, skipped, applyPayment, phaseB, redirects, highestInterest, findHighest,
    snapshot, accrue, accrueLoan]

theorem lateLoan_run (fuel : Nat) :
    resultData 10 (fun t => t + 1) (fuel + 1) lateLoan = ([(0, [0, 1000])], true) := by
  norm_num [resultData, simulate, initState, earliestStart, lateLoan, monthBody,
    phaseA, payLoan, skipped, applyPayment, phaseB, redirects, highestInterest, findHighest,
    snapshot]

/-- C6. A loan that has not started accrues interest.  "New" starts in month 3
with a principal of 1200 at 12 %; the rows of months 1 and 2, both before its
start, record 1212 and 1224.12 for it, not 1200: the interest loop of lines
232-234 has no guard on the start date, unlike the two loops before it. -/
theorem prestart_rows_accrue_interest :
    (resultData 10 (fun t => t + 1) 3 delayedStart).1
      = [(0, [900, 1200]), (1, [800, 1212]), (2, [700, 122412 / 100])] ∧
    delayedStart[1]? = some ⟨"New", 3, 1200, 12 / 100, 24, 50, 0⟩ ∧
    (1 : Int) < 3 ∧ (1212 : ℚ) ≠ 1200 :=
  ⟨delayedStart_run, by simp [delayedStart], by norm_num, by norm_num⟩

/-- C1. The loop stops while a loan has not started.  Loan A is retired by its
first payment and loan B starts three months later; principal, rate and
payments are non-negative.  The loop breaks in the first month, whatever the
number of months allowed, and the last row records B at its whole principal
of 1000: the flag tested by the `break` is only set by loans the payment loop
processes, and that loop skips a loan that has not started. -/
theorem last_row_keeps_unstarted_loan :
    lateLoan ≠ [] ∧
    (∀ v ∈ lateLoan, 0 ≤ v.Amount ∧ 0 ≤ v.InterestRate ∧ 0 ≤ v.Payment ∧
      0 ≤ v.AdditionalPayment) ∧
    (∀ fuel : Nat,
      resultData 10 (fun t => t + 1) (fuel + 1) lateLoan = ([(0, [0, 1000])], true)) ∧
    ¬ ((1000 : ℚ) < 1 / 100) := by
  refine ⟨by simp [lateLoan], ?_, lateLoan_run, by norm_num⟩
  intro v hv
  simp only [lateLoan, List.mem_cons, List.mem_singleton, List.not_mem_nil, or_false] at hv
  rcases hv with rfl | rfl <;> norm_num

/-! ## Runs that stop -/

/-- A run that has stopped did so in some month `k`: the loop went on in every
earlier month, broke in month `k`, and the last row is the snapshot of that
month. -/
theorem simulate_stopped (addMonth : Int → Int) (n : Nat) (s : State)
    (h : (simulate addMonth n s).2 = true) :
    ∃ k, k < n ∧ (monthBody (stateAt addMonth s k)).2 = false ∧
      (simulate addMonth n s).1.length = k + 1 ∧
      (simulate addMonth n s).1.getLast? = some (snapshot (monthBody (stateAt addMonth s k)).1) := by
  induction n generalizing s with
  | zero => simp [simulate] at h
  | succ n ih =>
    cases hb : (monthBody s).2
    · rw [simulate_succ_stop addMonth n s hb]
      exact ⟨0, Nat.succ_pos n, by simpa [stateAt] using hb, by simp, by simp [stateAt]⟩
    · rw [simulate_succ_continue addMonth n s hb] at h ⊢
      obtain ⟨k, hk, hstop, hlen, hlast⟩ := ih (nextMonth addMonth s) h
      refine ⟨k + 1, by omega, by rw [stateAt_succ]; exact hstop, by simp [hlen], ?_⟩
      rw [List.getLast?_cons, hlast, stateAt_succ]
      rfl

theorem stateAt_length (addMonth : Int → Int) (s : State) (k : Nat) :
    (stateAt addMonth s k).LoanInfos.length = s.LoanInfos.length := by
  induction k with
  | zero => rfl
  | succ k ih => rw [stateAt_succ_outer, nextMonth_length, ih]

theorem stateAt_dateTracker (addMonth : Int → Int) (s : State) (k : Nat) :
    (stateAt addMonth s k).dateTracker = addMonth^[k] s.dateTracker := by
  induction k with
  | zero => rfl
  | succ k ih =>
    rw [stateAt_succ_outer, nextMonth_dateTracker, ih, Function.iterate_succ_apply']

theorem accrueLoan_fields (v : LoanInfo) :
    (accrueLoan v).StartDate = v.StartDate ∧ (accrueLoan v).InterestRate = v.InterestRate ∧
    (accrueLoan v).Payment = v.Payment ∧
    (accrueLoan v).AdditionalPayment = v.AdditionalPayment := by
  simp [accrueLoan]

/-- The loan at position `i` keeps its start date, rate and payments in every
month. -/
theorem stateAt_loan_fields (addMonth : Int → Int) (s : State) (i : Nat) (v : LoanInfo)
    (h : s.LoanInfos[i]? = some v) (k : Nat) :
    ∃ w, (stateAt addMonth s k).LoanInfos[i]? = some w ∧
      w.StartDate = v.StartDate ∧ w.InterestRate = v.InterestRate ∧
      w.Payment = v.Payment ∧ w.AdditionalPayment = v.AdditionalPayment := by
  induction k with
  | zero => exact ⟨v, h, rfl, rfl, rfl, rfl⟩
  | succ k ih =>
    obtain ⟨w, hw, h1, h2, h3, h4⟩ := ih
    obtain ⟨u, _, hn, hres⟩ := nextMonth_loan addMonth _ i w hw
    obtain ⟨f1, f2, f3, f4⟩ := monthResult_fields _ _ w u hres
    obtain ⟨a1, a2, a3, a4⟩ := accrueLoan_fields u
    rw [stateAt_succ_outer]
    exact ⟨_, hn, by rw [a1, f1, h1], by rw [a2, f2, h2], by rw [a3, f3, h3],
      by rw [a4, f4, h4]⟩

/-- In the month in which the loop breaks, every loan that has started is
recorded below `0.01`. -/
theorem started_below_floor_at_stop (s : State) (h : (monthBody s).2 = false) (i : Nat)
    (w : LoanInfo) (hw : (monthBody s).1.LoanInfos[i]? = some w)
    (hstart : w.StartDate ≤ s.dateTracker) : w.Amount < 1 / 100 := by
  obtain ⟨hall, _, heq, _⟩ := monthBody_of_stop s h
  rw [heq] at hw
  have := hall w (List.getElem?_mem hw)
  rw [skipped_eq_true_iff] at this
  rcases this with hlt | hlt
  · exact absurd hstart (not_le.mpr hlt)
  · exact hlt
/-! ## The first month of a single loan -/

theorem earliestStart_single (now : Int) (v : LoanInfo) (h : v.StartDate ≤ now) :
    earliestStart now [v] = v.StartDate := by
  simp only [earliestStart]
  split_ifs with hlt
  · rfl
  · exact le_antisymm (not_lt.mp hlt) h

/-! ## Loans that have not started, and the last row -/

theorem iterate_addMonth_mono (addMonth : Int → Int) (hmono : ∀ t, t ≤ addMonth t) (t : Int)
    (j k : Nat) (hjk : j ≤ k) : addMonth^[j] t ≤ addMonth^[k] t := by
  induction k with
  | zero =>
    have : j = 0 := by omega
    subst this; exact le_refl _
  | succ k ih =>
    rcases Nat.eq_or_lt_of_le hjk with rfl | hlt
    · exact le_refl _
    · rw [Function.iterate_succ_apply']
      exact le_trans (ih (by omega)) (hmono _)

/-- A loan whose start date lies after month `k` has only accrued interest up to
that month: on entry to month `j ≤ k` its balance is the principal times
`(1 + rate / 12) ^ j`. -/
theorem stateAt_prestart (addMonth : Int → Int) (hmono : ∀ t, t ≤ addMonth t) (s : State)
    (i : Nat) (v : LoanInfo) (hv : s.LoanInfos[i]? = some v) (k : Nat)
    (hpre : addMonth^[k] s.dateTracker < v.StartDate) (j : Nat) (hj : j ≤ k) :
    (stateAt addMonth s j).LoanInfos[i]?
      = some { v with Amount := v.Amount * (1 + v.InterestRate / 12) ^ j } := by
  induction j with
  | zero => simpa [stateAt] using hv
  | succ j ih =>
    have hprev := ih (by omega)
    obtain ⟨w, _, hn, hres⟩ := nextMonth_loan addMonth _ i _ hprev
    have hsk : skipped (stateAt addMonth s j).dateTracker
        { v with Amount := v.Amount * (1 + v.InterestRate / 12) ^ j } = true := by
      rw [skipped_eq_true_iff, stateAt_dateTracker]
      left
      exact lt_of_le_of_lt (iterate_addMonth_mono addMonth hmono _ j k (by omega)) hpre
    have hw := monthResult_of_skipped _ _ _ w hres hsk
    subst hw
    rw [stateAt_succ_outer, hn]
    simp only [accrueLoan, pow_succ]
    congr 2
    ring

/-- What the program records before a start date.  For every loan and every
recorded row whose month is before that loan's start date, the recorded balance
is the loan's original principal with one month of interest added for every
earlier row: row `k` (counted from zero) records
`principal * (1 + rate / 12) ^ k`.  The month steps are assumed to move the
date forward. -/
theorem prestart_balance_compounds (now : Int) (addMonth : Int → Int) (fuel : Nat)
    (loans : List LoanInfo) (hforward : ∀ t, t < addMonth t) (k i : Nat)
    (row : Int × List ℚ) (v : LoanInfo)
    (hrow : (resultData now addMonth fuel loans).1[k]? = some row)
    (hv : loans[i]? = some v) (hpre : row.1 < v.StartDate) :
    row.2[i]? = some (v.Amount * (1 + v.InterestRate / 12) ^ k) := by
  have hmono : ∀ t, t ≤ addMonth t := fun t => le_of_lt (hforward t)
  have hr := simulate_row addMonth fuel (initState now loans) k row hrow
  subst hr
  have hdate : (snapshot (monthBody (stateAt addMonth (initState now loans) k)).1).1
      = addMonth^[k] (initState now loans).dateTracker := by
    simp [snapshot, monthBody_dateTracker, stateAt_dateTracker]
  rw [hdate] at hpre
  have hst := stateAt_prestart addMonth hmono (initState now loans) i v hv k hpre k (le_refl k)
  obtain ⟨w, hw, hres⟩ := monthBody_loan _ i _ hst
  have hsk : skipped (stateAt addMonth (initState now loans) k).dateTracker
      { v with Amount := v.Amount * (1 + v.InterestRate / 12) ^ k } = true := by
    rw [skipped_eq_true_iff, stateAt_dateTracker]
    left; exact hpre
  have hwv := monthResult_of_skipped _ _ _ w hres hsk
  subst hwv
  simp [snapshot, hw]

/-- The last row and the loans that have started.  On every loan list on which
the loop stops, every balance in the last recorded row (the snapshot of the
month in which the loop breaks) is strictly below `0.01` for every loan whose
start date is not later than that month. -/
theorem last_row_started_below_floor (now : Int) (addMonth : Int → Int) (fuel : Nat)
    (loans : List LoanInfo) (hstop : (resultData now addMonth fuel loans).2 = true)
    (row : Int × List ℚ) (hlast : (resultData now addMonth fuel loans).1.getLast? = some row)
    (i : Nat) (v : LoanInfo) (b : ℚ) (hv : loans[i]? = some v) (hstart : v.StartDate ≤ row.1)
    (hb : row.2[i]? = some b) : b < 1 / 100 := by
  obtain ⟨k, _, hk, _, hl⟩ := simulate_stopped addMonth fuel (initState now loans) hstop
  have hrow : row = snapshot (monthBody (stateAt addMonth (initState now loans) k)).1 := by
    have : (resultData now addMonth fuel loans).1.getLast? = some
        (snapshot (monthBody (stateAt addMonth (initState now loans) k)).1) := hl
    rw [hlast] at this
    exact Option.some.inj this
  subst hrow
  obtain ⟨u, hu, hu1, _⟩ := stateAt_loan_fields addMonth (initState now loans) i v hv k
  obtain ⟨w, hw, hres⟩ := monthBody_loan _ i u hu
  have hwstart : w.StartDate = v.StartDate := by
    rw [(monthResult_fields _ _ u w hres).1, hu1]
  have hwb : w.Amount = b := by
    simpa [snapshot, hw] using hb
  rw [← hwb]
  apply started_below_floor_at_stop _ hk i w hw
  rw [hwstart]
  simpa [snapshot, monthBody_dateTracker] using hstart

/-! ## Termination -/

theorem iterate_succ_int (j : Nat) (t : Int) : (fun t : Int => t + 1)^[j] t = t + j := by
  induction j generalizing t with
  | zero => simp
  | succ j ih =>
    rw [Function.iterate_succ_apply, ih]
    push_cast
    ring

/-! ## A run that never stops -/

theorem round32_zero : round32 0 = 0 := by simp [round32]

theorem floor_intCast_add_half (n : Int) : ⌊(n : ℚ) + 1 / 2⌋ = n := by
  rw [Int.floor_eq_iff]
  constructor <;> norm_num

theorem roundHalfEven_intCast (n : Int) : roundHalfEven (n : ℚ) = n := by
  simp [roundHalfEven]

theorem roundHalfEven_of_near (y : ℚ) (n : Int) (h1 : (n : ℚ) - 1 / 2 < y)
    (h2 : y < (n : ℚ) + 1 / 2) : roundHalfEven y = n := by
  unfold roundHalfEven
  by_cases hn : (n : ℚ) ≤ y
  · have hf : ⌊y⌋ = n := by
      rw [Int.floor_eq_iff]; constructor <;> linarith
    rw [hf, if_pos (by linarith)]
  · have hf : ⌊y⌋ = n - 1 := by
      rw [Int.floor_eq_iff]; push_cast; constructor <;> linarith
    rw [hf]
    push_cast
    rw [if_neg (by linarith), if_pos (by linarith)]
    ring

theorem roundHalfEven_tie_odd (n : Int) (hn : n % 2 = 1) :
    roundHalfEven ((n : ℚ) + 1 / 2) = n + 1 := by
  unfold roundHalfEven
  rw [floor_intCast_add_half]
  have h : (n : ℚ) + 1 / 2 - n = 1 / 2 := by ring
  rw [h]
  simp [hn]

theorem log_two_eq (x : ℚ) (e : Int) (h1 : (2 : ℚ) ^ e ≤ x) (h2 : x < (2 : ℚ) ^ (e + 1)) :
    Int.log 2 x = e := by
  have hx : 0 < x := lt_of_lt_of_le (zpow_pos (by norm_num) e) h1
  have ha : e ≤ Int.log 2 x :=
    (Int.zpow_le_iff_le_log (by norm_num) hx).mp (by exact_mod_cast h1)
  have hb : Int.log 2 x < e + 1 :=
    (Int.lt_zpow_iff_log_lt (by norm_num) hx).mp (by exact_mod_cast h2)
  omega

/-- The value of `round32` on a positive number of known exponent `e`: the
number is divided by `2 ^ (e - 23)`, rounded to an integer and scaled back. -/
theorem round32_of_binade_pos (x : ℚ) (e n : Int) (h1 : (2 : ℚ) ^ e ≤ x)
    (h2 : x < (2 : ℚ) ^ (e + 1)) (he : -126 ≤ e)
    (hn : roundHalfEven (x / (2 : ℚ) ^ (e - 23)) = n) (hn0 : 0 ≤ n)
    (hr : (n : ℚ) * (2 : ℚ) ^ (e - 23) < 2 ^ 128) :
    round32 x = (n : ℚ) * (2 : ℚ) ^ (e - 23) := by
  have hx : 0 < x := lt_of_lt_of_le (zpow_pos (by norm_num) e) h1
  have hq : (0 : ℚ) ≤ (n : ℚ) * (2 : ℚ) ^ (e - 23) :=
    mul_nonneg (by exact_mod_cast hn0) (le_of_lt (zpow_pos (by norm_num) _))
  have hlog := log_two_eq |x| e (by rw [abs_of_pos hx]; exact h1)
    (by rw [abs_of_pos hx]; exact h2)
  have hr' : |(n : ℚ) * (2 : ℚ) ^ (e - 23)| < 2 ^ 128 := by
    rw [abs_of_nonneg hq]; exact hr
  simp only [round32, ne_of_gt hx, if_false, hlog, max_eq_left he, hn, hr', if_true]

theorem abs_intCast_lt (k : Int) (hk : |k| < 2 ^ 24) : |(k : ℚ)| < 2 ^ 24 := by
  have h : ((|k| : Int) : ℚ) < ((2 ^ 24 : Int) : ℚ) := Int.cast_lt.mpr hk
  rw [Int.cast_abs] at h
  norm_num at h ⊢
  exact h

/-- Every `k * 2 ^ E` with fewer than 25 bits in `k`, `E` not below the
exponent of the smallest subnormal and a magnitude under `2 ^ 128` is a float32
value: `round32` leaves it as it is. -/
theorem round32_mantissa (k E : Int) (hk : |k| < 2 ^ 24) (hE : -149 ≤ E)
    (hr : |(k : ℚ) * (2 : ℚ) ^ E| < 2 ^ 128) :
    round32 ((k : ℚ) * (2 : ℚ) ^ E) = (k : ℚ) * (2 : ℚ) ^ E := by
  by_cases hk0 : k = 0
  · simp [hk0, round32]
  have h2 : (0 : ℚ) < 2 := by norm_num
  have hpowE : (0 : ℚ) < (2 : ℚ) ^ E := zpow_pos h2 E
  have hx : (k : ℚ) * (2 : ℚ) ^ E ≠ 0 :=
    mul_ne_zero (by exact_mod_cast hk0) (ne_of_gt hpowE)
  have hxpos : 0 < |(k : ℚ) * (2 : ℚ) ^ E| := abs_pos.mpr hx
  have hlt : |(k : ℚ) * (2 : ℚ) ^ E| < (2 : ℚ) ^ (E + 24) := by
    rw [abs_mul, abs_of_pos hpowE, zpow_add₀ (ne_of_gt h2), mul_comm]
    apply mul_lt_mul_of_pos_left _ hpowE
    have := abs_intCast_lt k hk
    norm_num at this ⊢
    exact this
  have hlog : Int.log 2 |(k : ℚ) * (2 : ℚ) ^ E| < E + 24 :=
    (Int.lt_zpow_iff_log_lt (by norm_num) hxpos).mp (by exact_mod_cast hlt)
  have hm : max (Int.log 2 |(k : ℚ) * (2 : ℚ) ^ E|) (-126) - 23 ≤ E := by
    rcases max_cases (Int.log 2 |(k : ℚ) * (2 : ℚ) ^ E|) (-126) with ⟨h, _⟩ | ⟨h, _⟩ <;>
      rw [h] <;> omega
  obtain ⟨d, hd⟩ : ∃ d : Nat,
      E = max (Int.log 2 |(k : ℚ) * (2 : ℚ) ^ E|) (-126) - 23 + d :=
    ⟨(E - (max (Int.log 2 |(k : ℚ) * (2 : ℚ) ^ E|) (-126) - 23)).toNat, by
      rw [Int.toNat_of_nonneg (by omega)]; ring⟩
  have hdiv : (k : ℚ) * (2 : ℚ) ^ E /
      (2 : ℚ) ^ (max (Int.log 2 |(k : ℚ) * (2 : ℚ) ^ E|) (-126) - 23)
      = ((k * 2 ^ d : Int) : ℚ) := by
    have hq : (2 : ℚ) ^ (max (Int.log 2 |(k : ℚ) * (2 : ℚ) ^ E|) (-126) - 23) ≠ 0 :=
      ne_of_gt (zpow_pos h2 _)
    rw [div_eq_iff hq]
    push_cast
    conv_lhs => rw [hd]
    rw [zpow_add₀ (ne_of_gt h2), zpow_natCast]
    ring
  have hback : ((k * 2 ^ d : Int) : ℚ) *
      (2 : ℚ) ^ (max (Int.log 2 |(k : ℚ) * (2 : ℚ) ^ E|) (-126) - 23)
      = (k : ℚ) * (2 : ℚ) ^ E := by
    rw [← hdiv]
    exact div_mul_cancel₀ _ (ne_of_gt (zpow_pos h2 _))
  simp only [round32, hx, if_false, hdiv, roundHalfEven_intCast, hback, hr, if_true]

/-- A whole number of fewer than 25 bits is a float32 value. -/
theorem round32_intCast (k : Int) (hk : |k| < 2 ^ 24) : round32 (k : ℚ) = k := by
  have h := round32_mantissa k 0 hk (by norm_num) (by
    simp only [zpow_zero, mul_one]
    linarith [abs_intCast_lt k hk, show (2 : ℚ) ^ 24 < 2 ^ 128 by norm_num])
  simpa using h

/-- A dyadic value whose numerator has fewer than 25 bits is a float32 value. -/
theorem round32_dyadic (k : Int) (n : Nat) (hk : |k| < 2 ^ 24) (hn : n ≤ 149) :
    round32 ((k : ℚ) / 2 ^ n) = (k : ℚ) / 2 ^ n := by
  have hpow : (0 : ℚ) < 2 ^ n := pow_pos (by norm_num) n
  have hform : (k : ℚ) / 2 ^ n = (k : ℚ) * (2 : ℚ) ^ (-(n : Int)) := by
    rw [zpow_neg, zpow_natCast, div_eq_mul_inv]
  rw [hform]
  apply round32_mantissa k _ hk (by omega)
  rw [← hform, abs_div, abs_of_pos hpow]
  have h2 := abs_intCast_lt k hk
  have h3 : |(k : ℚ)| / 2 ^ n ≤ |(k : ℚ)| :=
    div_le_self (abs_nonneg _) (one_le_pow₀ (by norm_num))
  linarith [show (2 : ℚ) ^ 24 < 2 ^ 128 by norm_num]

/-- The float32 value of the literal `0.01`. -/
theorem round32_floor : round32 (1 / 100) = 5368709 / 536870912 := by
  rw [round32_of_binade_pos (1 / 100) (-7) 10737418 (by norm_num) (by norm_num) (by norm_num)
    (roundHalfEven_of_near _ _ (by norm_num) (by norm_num)) (by norm_num) (by norm_num)]
  norm_num

theorem round32_floor_le : round32 (1 / 100) ≤ 1 / 100 := by
  rw [round32_floor]; norm_num

/-- 300000.25 - 1000.0078125 = 299000.2421875 rounds to 299000.25. -/
theorem round32_rounded : round32 (38272031 / 128) = 1196001 / 4 := by
  rw [round32_of_binade_pos _ 18 9568008 (by norm_num) (by norm_num) (by norm_num)
    (roundHalfEven_of_near _ _ (by norm_num) (by norm_num)) (by norm_num) (by norm_num)]
  norm_num

/-- 16777216 - 0.5 = 16777215.5 lies half way between two float32 values and
rounds to the even one, 16777216. -/
theorem round32_absorbed : round32 (33554431 / 2) = 16777216 := by
  rw [round32_of_binade_pos _ 23 16777216 (by norm_num) (by norm_num) (by norm_num)
    (by
      have := roundHalfEven_tie_odd 16777215 (by norm_num)
      norm_num at this ⊢
      exact this) (by norm_num) (by norm_num)]
  norm_num

/-! ## The float32 loop where its arithmetic is exact -/

theorem simulate32_succ_stop (addMonth : Int → Int) (fuel : Nat) (s : State)
    (h : (monthBody32 s).2 = false) :
    simulate32 addMonth (fuel + 1) s = ([snapshot (monthBody32 s).1], true) := by
  simp [simulate32, h]

theorem simulate32_succ_continue (addMonth : Int → Int) (fuel : Nat) (s : State)
    (h : (monthBody32 s).2 = true) :
    simulate32 addMonth (fuel + 1) s
      = (snapshot (monthBody32 s).1 ::
            (simulate32 addMonth fuel (accrue32 addMonth (monthBody32 s).1)).1,
          (simulate32 addMonth fuel (accrue32 addMonth (monthBody32 s).1)).2) := by
  simp [simulate32, h]

/-- One float32 month of a single started loan at 0 % whose balance is at least
`0.01`: the balance after the month is the payment loop's result. -/
theorem monthBody32_single (s : State) (v : LoanInfo) (hs : s.LoanInfos = [v])
    (hrate : v.InterestRate = 0) (hstart : v.StartDate ≤ s.dateTracker)
    (hfloor : 1 / 100 ≤ v.Amount) :
    (monthBody32 s).1.LoanInfos
      = [{ v with Amount :=
            applyPayment32 (round32 (v.Payment + v.AdditionalPayment)) v.Amount }] ∧
    (monthBody32 s).2
      = decide (applyPayment32 (round32 (v.Payment + v.AdditionalPayment)) v.Amount > 0) := by
  have hc : ¬ v.Amount < round32 (1 / 100) :=
    not_lt.mpr (le_trans round32_floor_le hfloor)
  have hsk : skipped32 s.dateTracker v = false := by
    unfold skipped32
    rw [decide_eq_false (not_lt.mpr hstart), decide_eq_false hc]
    rfl
  have hred : ∀ (w : LoanInfo) (rem roll : ℚ), w.InterestRate = 0 →
      redirects32 s.dateTracker [w] rem roll = false := by
    intro w rem roll hw
    simp only [redirects32, highestInterest32, findHighest32]
    split_ifs <;> simp [hw]
  unfold monthBody32 afterPhaseA32
  rw [hs]
  simp only [phaseA32, payLoan32, hsk]
  simp only [Bool.false_eq_true, if_false]
  unfold phaseB32
  rw [hred
    { v with
      Amount := applyPayment32 (round32 (v.Payment + v.AdditionalPayment)) v.Amount }
    _ _ hrate]
  simp only [Bool.false_eq_true, if_false]
  refine ⟨trivial, ?_⟩
  split_ifs <;> simp_all

/-- A single started loan at 0 % whose balance `A` satisfies
`K * p < A ≤ (K + 1) * p` for the payment `p`, whose balances `A - k * p` above
zero are float32 values of at least `0.01`, and whose payment is a float32
value: the float32 loop stops after `K + 1` rows and the last balance is 0. -/
theorem simulate32_single (addMonth : Int → Int) (hmono : ∀ t, t ≤ addMonth t) (K : Nat) :
    ∀ (fuel : Nat) (s : State) (v : LoanInfo), s.LoanInfos = [v] → v.InterestRate = 0 →
      v.StartDate ≤ s.dateTracker → 0 < payment v → round32 (payment v) = payment v →
      (∀ k : Nat, 0 < v.Amount - k * payment v → 1 / 100 ≤ v.Amount - k * payment v) →
      (∀ k : Nat, 0 < v.Amount - k * payment v →
        round32 (v.Amount - k * payment v) = v.Amount - k * payment v) →
      (K : ℚ) * payment v < v.Amount → v.Amount ≤ ((K : ℚ) + 1) * payment v → K + 1 ≤ fuel →
      (simulate32 addMonth fuel s).2 = true ∧ (simulate32 addMonth fuel s).1.length = K + 1 ∧
      (simulate32 addMonth fuel s).1.getLast?.map Prod.snd = some [0] := by
  induction K with
  | zero =>
    intro fuel s v hs hrate hstart hp hpr hdust hbal hlo hhi hfuel
    obtain ⟨n, rfl⟩ : ∃ n, fuel = n + 1 := ⟨fuel - 1, by omega⟩
    have hpos : 0 < v.Amount := by simpa using hlo
    have hfloor : 1 / 100 ≤ v.Amount := by simpa using hdust 0 (by simpa using hpos)
    obtain ⟨hl, hb⟩ := monthBody32_single s v hs hrate hstart hfloor
    have hpv : round32 (v.Payment + v.AdditionalPayment) = payment v := hpr
    rw [hpv] at hl hb
    have hzero : applyPayment32 (payment v) v.Amount = 0 := by
      unfold applyPayment32
      split_ifs with h
      · rfl
      · have h1 : v.Amount ≤ payment v := by simpa using hhi
        have h2 : v.Amount - payment v = 0 := by linarith [not_lt.mp h]
        rw [h2, round32_zero]
    have hstop : (monthBody32 s).2 = false := by rw [hb, hzero]; simp
    rw [simulate32_succ_stop addMonth n s hstop]
    simp [snapshot, hl, hzero]
  | succ K ih =>
    intro fuel s v hs hrate hstart hp hpr hdust hbal hlo hhi hfuel
    obtain ⟨n, rfl⟩ : ∃ n, fuel = n + 1 := ⟨fuel - 1, by omega⟩
    push_cast at hlo hhi
    have hKp : 0 ≤ (K : ℚ) * payment v := mul_nonneg (Nat.cast_nonneg K) (le_of_lt hp)
    have hgt : payment v < v.Amount := by nlinarith
    have hfloor : 1 / 100 ≤ v.Amount := by
      have := hdust 0 (by simp; linarith)
      simpa using this
    obtain ⟨hl, hb⟩ := monthBody32_single s v hs hrate hstart hfloor
    have hpv : round32 (v.Payment + v.AdditionalPayment) = payment v := hpr
    rw [hpv] at hl hb
    have hr1 : round32 (v.Amount - payment v) = v.Amount - payment v := by
      have := hbal 1 (by simp; linarith)
      simpa using this
    have happ : applyPayment32 (payment v) v.Amount = v.Amount - payment v := by
      unfold applyPayment32
      rw [if_neg (not_lt.mpr (le_of_lt hgt)), hr1]
    have hcont : (monthBody32 s).2 = true := by
      rw [hb, happ]; simp; linarith
    rw [simulate32_succ_continue addMonth n s hcont]
    have hnext : (accrue32 addMonth (monthBody32 s).1).LoanInfos
        = [{ v with Amount := v.Amount - payment v }] := by
      simp [accrue32, hl, happ, accrueLoan32, hrate, round32_zero, hr1]
    have hdate : (accrue32 addMonth (monthBody32 s).1).dateTracker = addMonth s.dateTracker := rfl
    have hpay : payment { v with Amount := v.Amount - payment v } = payment v := rfl
    obtain ⟨h1, h2, h3⟩ := ih n (accrue32 addMonth (monthBody32 s).1)
      { v with Amount := v.Amount - payment v }
      hnext hrate
      (by rw [hdate]; exact le_trans hstart (hmono _))
      (by rw [hpay]; exact hp)
      (by rw [hpay]; exact hpr)
      (by
        intro k hk
        rw [hpay] at hk ⊢
        have := hdust (k + 1) (by push_cast; simp only at hk; linarith)
        push_cast at this
        simp only
        linarith)
      (by
        intro k hk
        rw [hpay] at hk ⊢
        have := hbal (k + 1) (by push_cast; simp only at hk; linarith)
        push_cast at this
        simp only
        have e : v.Amount - payment v - (k : ℚ) * payment v
            = v.Amount - ((k : ℚ) + 1) * payment v := by ring
        rw [e]
        exact this)
      (by rw [hpay]; simp only; linarith)
      (by rw [hpay]; simp only; linarith)
      (by omega)
    refine ⟨h1, by simp [h2], ?_⟩
    rw [List.getLast?_cons]
    cases hlast : (simulate32 addMonth n (accrue32 addMonth (monthBody32 s).1)).1.getLast? with
    | none => rw [hlast] at h3; simp at h3
    | some r => rw [hlast] at h3; simpa using h3

/-- C8, amended.  A portfolio of one loan with `annual_rate = 0`,
`additional_payment = 0`, `scheduled_payment > 0`, a principal above zero and a
start date not later than the current time, computed in float32: if the payment
is a float32 value and every balance `principal - k * payment` above zero is a
float32 value of at least `0.01` (so that no subtraction is rounded and no
balance is left under the floor), then, given at least `ceil (principal /
payment)` months, the loop stops, the number of recorded rows is `ceil
(principal / payment)` and the balance in the last row is 0.  The month steps
are assumed to move the date forward. -/
theorem single_zero_interest_loan_float (now : Int) (addMonth : Int → Int) (fuel : Nat)
    (v : LoanInfo) (hforward : ∀ t, t < addMonth t) (hrate : v.InterestRate = 0)
    (hadd : v.AdditionalPayment = 0) (hpay : 0 < v.Payment) (hstart : v.StartDate ≤ now)
    (hpos : 0 < v.Amount)
    (hdust : ∀ k : Nat, 0 < v.Amount - k * v.Payment → 1 / 100 ≤ v.Amount - k * v.Payment)
    (hpayment : round32 v.Payment = v.Payment)
    (hbalance : ∀ k : Nat, 0 < v.Amount - k * v.Payment →
      round32 (v.Amount - k * v.Payment) = v.Amount - k * v.Payment)
    (hfuel : ⌈v.Amount / v.Payment⌉₊ ≤ fuel) :
    (resultData32 now addMonth fuel [v]).2 = true ∧
    (resultData32 now addMonth fuel [v]).1.length = ⌈v.Amount / v.Payment⌉₊ ∧
    (resultData32 now addMonth fuel [v]).1.getLast?.map Prod.snd = some [0] := by
  have hmono : ∀ t, t ≤ addMonth t := fun t => le_of_lt (hforward t)
  have hp : payment v = v.Payment := by simp [payment, hadd]
  have hKpos : 0 < ⌈v.Amount / v.Payment⌉₊ := Nat.ceil_pos.mpr (div_pos hpos hpay)
  obtain ⟨K, hK⟩ : ∃ K, ⌈v.Amount / v.Payment⌉₊ = K + 1 :=
    ⟨⌈v.Amount / v.Payment⌉₊ - 1, by omega⟩
  have hceil := (Nat.ceil_eq_iff (Nat.succ_ne_zero K)).mp hK
  simp only [Nat.add_sub_cancel] at hceil
  have hlo : (K : ℚ) * payment v < v.Amount := by
    rw [hp]; exact (lt_div_iff₀ hpay).mp hceil.1
  have hhi : v.Amount ≤ ((K : ℚ) + 1) * payment v := by
    rw [hp]
    have := (div_le_iff₀ hpay).mp hceil.2
    push_cast at this
    exact this
  rw [hK] at hfuel ⊢
  exact simulate32_single addMonth hmono K fuel (initState now [v]) v rfl hrate
    (by simp [initState, earliestStart_single now v hstart]) (by rw [hp]; exact hpay)
    (by rw [hp]; exact hpayment) (by rw [hp]; exact hdust) (by rw [hp]; exact hbalance)
    hlo hhi hfuel

theorem round32_hundreds :
    round32 100 = 100 ∧ round32 200 = 200 ∧ round32 300 = 300 ∧ round32 400 = 400 ∧
    round32 500 = 500 ∧ round32 600 = 600 ∧ round32 700 = 700 ∧ round32 800 = 800 ∧
    round32 900 = 900 ∧ round32 1000 = 1000 := by
  refine ⟨?_, ?_, ?_, ?_, ?_, ?_, ?_, ?_, ?_, ?_⟩
  · simpa using round32_intCast 100 (by norm_num)
  · simpa using round32_intCast 200 (by norm_num)
  · simpa using round32_intCast 300 (by norm_num)
  · simpa using round32_intCast 400 (by norm_num)
  · simpa using round32_intCast 500 (by norm_num)
  · simpa using round32_intCast 600 (by norm_num)
  · simpa using round32_intCast 700 (by norm_num)
  · simpa using round32_intCast 800 (by norm_num)
  · simpa using round32_intCast 900 (by norm_num)
  · simpa using round32_intCast 1000 (by norm_num)

/-- Witness for C8, amended (Scenario 1): principal 1000 and payment 100 give, in
float32, ten rows with balances 900, 800, ..., 100, 0. -/
theorem single_zero_interest_loan_float_witness :
    ⌈scenario1.Amount / scenario1.Payment⌉₊ = 10 ∧
    (resultData32 10 (fun t => t + 1) 10 [scenario1]).1.map Prod.snd
      = [[900], [800], [700], [600], [500], [400], [300], [200], [100], [0]] ∧
    (resultData32 10 (fun t => t + 1) 10 [scenario1]).2 = true ∧
    (resultData32 10 (fun t => t + 1) 10 [scenario1]).1.length
      = ⌈scenario1.Amount / scenario1.Payment⌉₊ ∧
    (resultData32 10 (fun t => t + 1) 10 [scenario1]).1.getLast?.map Prod.snd = some [0] :=
  have hceil : ⌈scenario1.Amount / scenario1.Payment⌉₊ = 10 := by
    norm_num [scenario1]
  have hk9 : ∀ k : Nat, 0 < scenario1.Amount - k * scenario1.Payment → k ≤ 9 := by
    intro k hk
    simp only [scenario1] at hk
    have hlt : (k : ℚ) < 10 := by linarith
    have : k < 10 := by exact_mod_cast hlt
    omega
  have hdust : ∀ k : Nat, 0 < scenario1.Amount - k * scenario1.Payment →
      1 / 100 ≤ scenario1.Amount - k * scenario1.Payment := by
    intro k hk
    have hle : (k : ℚ) ≤ 9 := by exact_mod_cast hk9 k hk
    simp only [scenario1]
    linarith
  have hbalance : ∀ k : Nat, 0 < scenario1.Amount - k * scenario1.Payment →
      round32 (scenario1.Amount - k * scenario1.Payment)
        = scenario1.Amount - k * scenario1.Payment := by
    intro k hk
    have hle := hk9 k hk
    have h := round32_intCast (1000 - (k : Int) * 100)
      (by rw [abs_lt]; constructor <;> norm_num <;> omega)
    push_cast at h
    exact h
  ⟨hceil,
    by
      obtain ⟨h1, h2, h3, h4, h5, h6, h7, h8, h9, h10⟩ := round32_hundreds
      have hc := round32_floor
      norm_num [resultData32, simulate32, initState, earliestStart, scenario1, monthBody32,
        afterPhaseA32, phaseA32, payLoan32, skipped32, applyPayment32, phaseB32, redirects32,
        highestInterest32, findHighest32, snapshot, accrue32, accrueLoan32, round32_zero,
        h1, h2, h3, h4, h5, h6, h7, h8, h9, h10, hc],
    single_zero_interest_loan_float 10 (fun t => t + 1) 10 scenario1 (fun t => by simp) rfl
      rfl (by norm_num [scenario1]) (by norm_num [scenario1]) (by norm_num [scenario1]) hdust
      (by simpa [scenario1] using round32_hundreds.1) hbalance (by rw [hceil])⟩

theorem round32_two_pow_24 : round32 16777216 = 16777216 := by
  have h := round32_mantissa 1 24 (by norm_num) (by norm_num) (by norm_num)
  norm_num at h
  exact h

/-- One float32 month of `absorbedLoan`: the payment of 0.5 is subtracted and
the result rounds back to 16777216. -/
theorem absorbed_month (t : Int) (ht : 0 ≤ t) :
    (monthBody32 (absorbedState t)).2 = true ∧
    snapshot (monthBody32 (absorbedState t)).1 = (t, [16777216]) ∧
    accrue32 (fun t => t + 1) (monthBody32 (absorbedState t)).1 = absorbedState (t + 1) := by
  have h : ¬ t < 0 := not_lt.mpr ht
  have hhalf : round32 (1 / 2) = 1 / 2 := by
    have := round32_dyadic 1 1 (by norm_num) (by norm_num)
    norm_num at this
    exact this
  have hsub : (16777216 : ℚ) - 1 / 2 = 33554431 / 2 := by norm_num
  have hc := round32_floor
  refine ⟨?_, ?_, ?_⟩ <;>
  norm_num [absorbedState, absorbedLoan, monthBody32, afterPhaseA32, phaseA32, payLoan32,
    skipped32, applyPayment32, phaseB32, redirects32, highestInterest32, findHighest32,
    snapshot, accrue32, accrueLoan32, round32_zero, hhalf, hsub, round32_absorbed,
    round32_two_pow_24, hc, h]

theorem simulate32_absorbed (n : Nat) :
    ∀ t : Int, 0 ≤ t →
      (simulate32 (fun t => t + 1) n (absorbedState t)).2 = false ∧
      (simulate32 (fun t => t + 1) n (absorbedState t)).1.map Prod.snd
        = List.replicate n [16777216] := by
  induction n with
  | zero => intro t _; simp [simulate32]
  | succ n ih =>
    intro t ht
    obtain ⟨h1, h2, h3⟩ := absorbed_month t ht
    obtain ⟨a1, a2⟩ := ih (t + 1) (by omega)
    rw [simulate32_succ_continue _ n _ h1, h3, h2]
    exact ⟨a1, by simp [a2, List.replicate_succ]⟩

/-- C8 as stated fails on three inputs that meet its conditions, computed in
float32.  With a principal of 0 the loop records one row although
`ceil (0 / 100) = 0`.  With a principal of 100 + 1/256 and a payment of 100 the
last row records 1/256, not 0.  With a principal of 16777216 and a payment of
0.5 every subtraction rounds back to 16777216: the loop never stops and every
row records 16777216, while `ceil (principal / payment)` is 33554432. -/
theorem single_zero_interest_loan_float_counterexample :
    (zeroLoan.InterestRate = 0 ∧ zeroLoan.AdditionalPayment = 0 ∧ 0 < zeroLoan.Payment ∧
      0 ≤ zeroLoan.Amount ∧ zeroLoan.StartDate ≤ 10) ∧
    (∀ fuel : Nat,
      resultData32 10 (fun t => t + 1) (fuel + 1) [zeroLoan] = ([(0, [0])], true)) ∧
    ([(0, [0])] : List (Int × List ℚ)).length ≠ ⌈zeroLoan.Amount / zeroLoan.Payment⌉₊ ∧
    (dustLoan.InterestRate = 0 ∧ dustLoan.AdditionalPayment = 0 ∧
      0 < dustLoan.Payment ∧ 0 ≤ dustLoan.Amount ∧ dustLoan.StartDate ≤ 10) ∧
    (∀ fuel : Nat, resultData32 10 (fun t => t + 1) (fuel + 2) [dustLoan]
      = ([(0, [1 / 256]), (1, [1 / 256])], true)) ∧
    ([(0, [1 / 256]), (1, [1 / 256])] : List (Int × List ℚ)).getLast?.map Prod.snd
      ≠ some [0] ∧
    (absorbedLoan.InterestRate = 0 ∧ absorbedLoan.AdditionalPayment = 0 ∧
      0 < absorbedLoan.Payment ∧ 0 ≤ absorbedLoan.Amount ∧ absorbedLoan.StartDate ≤ 10) ∧
    ⌈absorbedLoan.Amount / absorbedLoan.Payment⌉₊ = 33554432 ∧
    (∀ fuel : Nat, (resultData32 10 (fun t => t + 1) fuel [absorbedLoan]).2 = false ∧
      (resultData32 10 (fun t => t + 1) fuel [absorbedLoan]).1.map Prod.snd
        = List.replicate fuel [16777216]) := by
  have hc := round32_floor
  have h100 : round32 100 = 100 := by simpa using round32_intCast 100 (by norm_num)
  have hdust : round32 (1 / 256) = 1 / 256 := by
    have := round32_dyadic 1 8 (by norm_num) (by norm_num)
    norm_num at this
    exact this
  have hsub : (100 : ℚ) + 1 / 256 - 100 = 1 / 256 := by norm_num
  refine ⟨by norm_num [zeroLoan], ?_, by norm_num [zeroLoan], by norm_num [dustLoan],
    ?_, by norm_num, by norm_num [absorbedLoan], by norm_num [absorbedLoan], ?_⟩
  · intro fuel
    norm_num [resultData32, simulate32, initState, earliestStart, zeroLoan, monthBody32,
      afterPhaseA32, phaseA32, payLoan32, skipped32, applyPayment32, phaseB32, redirects32,
      highestInterest32, findHighest32, snapshot, hc]
  · intro fuel
    norm_num [resultData32, simulate32, initState, earliestStart, dustLoan, monthBody32,
      afterPhaseA32, phaseA32, payLoan32, skipped32, applyPayment32, phaseB32, redirects32,
      highestInterest32, findHighest32, snapshot, accrue32, accrueLoan32, round32_zero,
      h100, hdust, hsub, hc]
  · intro fuel
    have h0 : initState 10 [absorbedLoan] = absorbedState 0 := by
      simp [initState, absorbedState, earliestStart, absorbedLoan]
    rw [resultData32, h0]
    exact simulate32_absorbed fuel 0 (le_refl 0)

/-! ## Conservation within a month, in float32 -/

theorem skipped32_eq_skipped (t : Int) (v : LoanInfo)
    (h : v.Amount < round32 (1 / 100) ∨ 1 / 100 ≤ v.Amount) :
    skipped32 t v = skipped t v := by
  have hc := round32_floor_le
  unfold skipped32 skipped
  rcases h with h | h
  · rw [decide_eq_true h, decide_eq_true (lt_of_lt_of_le h hc)]
  · rw [decide_eq_false (not_lt.mpr (le_trans hc h)), decide_eq_false (not_lt.mpr h)]

theorem findHighest32_eq_findHighest (t : Int) (loans : List LoanInfo)
    (h : ∀ v ∈ loans, v.Amount < round32 (1 / 100) ∨ 1 / 100 ≤ v.Amount) :
    ∀ (i : Nat) (best : Nat × ℚ), findHighest32 t loans i best = findHighest t loans i best := by
  induction loans with
  | nil => intro i best; rfl
  | cons v vs ih =>
    intro i best
    simp only [findHighest32, findHighest]
    rw [skipped32_eq_skipped t v (h v (List.mem_cons_self v vs))]
    exact ih (fun w hw => h w (List.mem_cons_of_mem v hw)) _ _

theorem redirects32_eq_redirects (t : Int) (loans : List LoanInfo) (rem roll : ℚ)
    (h : ∀ v ∈ loans, v.Amount < round32 (1 / 100) ∨ 1 / 100 ≤ v.Amount) :
    redirects32 t loans rem roll = redirects t loans rem roll := by
  simp only [redirects32, redirects, highestInterest32, highestInterest,
    findHighest32_eq_findHighest t loans h]

theorem filter_skipped32_eq (t : Int) (loans : List LoanInfo)
    (h : ∀ v ∈ loans, v.Amount < round32 (1 / 100) ∨ 1 / 100 ≤ v.Amount) :
    loans.filter (fun v => !skipped32 t v) = loans.filter (fun v => !skipped t v) := by
  apply List.filter_congr
  intro v hv
  rw [skipped32_eq_skipped t v (h v hv)]

/-- C10, amended.  Conservation within a month of the float32 loop, when no
result of the month is rounded.  If the float32 month gives the results of
exact arithmetic and no balance, before or after the payment loop, lies between
the float32 value of `0.01` and `0.01` itself, then the total by which the
balances fall in the payment loop and the redirect, plus the change of
`remainder` over the month, equals the sum of `Payment + AdditionalPayment`
over the loans the payment loop does not skip plus the rollover applied by the
redirect (the value of `rollOver` when the redirect pays a loan, zero
otherwise). -/
theorem month_conserves_payments_float (s : State) (hexact : exactMonth s)
    (hbefore : ∀ v ∈ s.LoanInfos, v.Amount < round32 (1 / 100) ∨ 1 / 100 ≤ v.Amount)
    (hafter : ∀ v ∈ (afterPhaseA32 s).1,
      v.Amount < round32 (1 / 100) ∨ 1 / 100 ≤ v.Amount) :
    ((s.LoanInfos.map (fun v => v.Amount)).sum
        - ((monthBody32 s).1.LoanInfos.map (fun v => v.Amount)).sum)
      + ((monthBody32 s).1.remainder - s.remainder)
    = ((s.LoanInfos.filter (fun v => !skipped32 s.dateTracker v)).map
          (fun v => v.Payment + v.AdditionalPayment)).sum
      + (if redirects32 s.dateTracker (afterPhaseA32 s).1 (afterPhaseA32 s).2.remainder
            (monthBody32 s).1.rollOver then (monthBody32 s).1.rollOver else 0) := by
  rw [filter_skipped32_eq s.dateTracker s.LoanInfos hbefore,
    redirects32_eq_redirects s.dateTracker (afterPhaseA32 s).1 _ _ hafter,
    hexact.1, hexact.2]
  exact month_conserves_payments_exact s

theorem whole_month :
    exactMonth ⟨wholeLoans, 0, 0, 0⟩ ∧
    afterPhaseA32 ⟨wholeLoans, 0, 0, 0⟩
      = ([⟨"A", 0, 0, 0, 1, 150, 0⟩, ⟨"B", 0, 950, 1 / 8, 24, 50, 0⟩], ⟨50, 150, true⟩) ∧
    monthBody32 ⟨wholeLoans, 0, 0, 0⟩
      = (⟨[⟨"A", 0, 0, 0, 1, 150, 0⟩, ⟨"B", 0, 750, 1 / 8, 24, 50, 0⟩], 150, 0, 0⟩, true) := by
  have h50 : round32 50 = 50 := by simpa using round32_intCast 50 (by norm_num)
  have h150 : round32 150 = 150 := by simpa using round32_intCast 150 (by norm_num)
  have h200 : round32 200 = 200 := by simpa using round32_intCast 200 (by norm_num)
  have h750 : round32 750 = 750 := by simpa using round32_intCast 750 (by norm_num)
  have h950 : round32 950 = 950 := by simpa using round32_intCast 950 (by norm_num)
  have hc := round32_floor
  refine ⟨⟨?_, ?_⟩, ?_, ?_⟩ <;>
  norm_num [exactMonth, afterPhaseA32, afterPhaseA, monthBody32, monthBody, phaseA32, phaseA,
    payLoan32, payLoan, skipped32, skipped, applyPayment32, applyPayment, phaseB32, phaseB,
    redirects32, redirects, highestInterest32, highestInterest, findHighest32, findHighest,
    wholeLoans, round32_zero, h50, h150, h200, h750, h950, hc]

/-- Witness for C10, amended: loan A (100, payment 150) is retired with an
overflow of 50 and loan B (1000 at 12.5 %, payment 50) receives the redirect of
50 + 150.  Every float32 result of the month is exact; the balances fall by
350, `remainder` is 0 before and after, the payments are 200 and the rollover
applied is 150. -/
theorem month_conserves_payments_float_witness :
    exactMonth ⟨wholeLoans, 0, 0, 0⟩ ∧
    (∀ v ∈ (⟨wholeLoans, 0, 0, 0⟩ : State).LoanInfos,
      v.Amount < round32 (1 / 100) ∨ 1 / 100 ≤ v.Amount) ∧
    (∀ v ∈ (afterPhaseA32 ⟨wholeLoans, 0, 0, 0⟩).1,
      v.Amount < round32 (1 / 100) ∨ 1 / 100 ≤ v.Amount) ∧
    (monthBody32 ⟨wholeLoans, 0, 0, 0⟩).1.LoanInfos.map (fun v => v.Amount) = [0, 750] ∧
    (((⟨wholeLoans, 0, 0, 0⟩ : State).LoanInfos.map (fun v => v.Amount)).sum
        - ((monthBody32 ⟨wholeLoans, 0, 0, 0⟩).1.LoanInfos.map (fun v => v.Amount)).sum)
      + ((monthBody32 ⟨wholeLoans, 0, 0, 0⟩).1.remainder
          - (⟨wholeLoans, 0, 0, 0⟩ : State).remainder)
    = (((⟨wholeLoans, 0, 0, 0⟩ : State).LoanInfos.filter
          (fun v => !skipped32 (⟨wholeLoans, 0, 0, 0⟩ : State).dateTracker v)).map
          (fun v => v.Payment + v.AdditionalPayment)).sum
      + (if redirects32 (⟨wholeLoans, 0, 0, 0⟩ : State).dateTracker
            (afterPhaseA32 ⟨wholeLoans, 0, 0, 0⟩).1
            (afterPhaseA32 ⟨wholeLoans, 0, 0, 0⟩).2.remainder
            (monthBody32 ⟨wholeLoans, 0, 0, 0⟩).1.rollOver
          then (monthBody32 ⟨wholeLoans, 0, 0, 0⟩).1.rollOver else 0) :=
  have hexact : exactMonth ⟨wholeLoans, 0, 0, 0⟩ := whole_month.1
  have hbefore : ∀ v ∈ (⟨wholeLoans, 0, 0, 0⟩ : State).LoanInfos,
      v.Amount < round32 (1 / 100) ∨ 1 / 100 ≤ v.Amount := by
    intro v hv
    simp only [wholeLoans, List.mem_cons, List.mem_singleton, List.not_mem_nil,
      or_false] at hv
    rcases hv with rfl | rfl <;> right <;> norm_num
  have hafter : ∀ v ∈ (afterPhaseA32 ⟨wholeLoans, 0, 0, 0⟩).1,
      v.Amount < round32 (1 / 100) ∨ 1 / 100 ≤ v.Amount := by
    intro v hv
    rw [whole_month.2.1] at hv
    simp only [List.mem_cons, List.mem_singleton, List.not_mem_nil, or_false] at hv
    rcases hv with rfl | rfl
    · left
      rw [round32_floor]
      norm_num
    · right
      norm_num
  ⟨hexact, hbefore, hafter, by rw [whole_month.2.2]; rfl,
    month_conserves_payments_float ⟨wholeLoans, 0, 0, 0⟩ hexact hbefore hafter⟩

theorem round32_rounded_payment : round32 (128001 / 128) = 128001 / 128 := by
  have := round32_dyadic 128001 7 (by norm_num) (by norm_num)
  norm_num at this
  exact this

theorem rounded_afterPhaseA32 :
    afterPhaseA32 roundedState
      = ([{ roundedLoan with Amount := 1196001 / 4 }], ⟨0, 0, true⟩) := by
  have hsub : (1200001 : ℚ) / 4 - 128001 / 128 = 38272031 / 128 := by norm_num
  have hc := round32_floor
  norm_num [roundedState, roundedLoan, afterPhaseA32, phaseA32, payLoan32, skipped32,
    applyPayment32, round32_zero, round32_rounded_payment, hsub, round32_rounded, hc]

theorem rounded_redirects32 :
    redirects32 0 [{ roundedLoan with Amount := 1196001 / 4 }] 0 0 = false := by
  simp [redirects32]

theorem rounded_monthBody32 :
    monthBody32 roundedState
      = (⟨[{ roundedLoan with Amount := 1196001 / 4 }], 0, 0, 0⟩, true) := by
  have hB : phaseB32 0 [{ roundedLoan with Amount := 1196001 / 4 }] 0 0
      = ([{ roundedLoan with Amount := 1196001 / 4 }], 0) := by
    simp [phaseB32, rounded_redirects32]
  unfold monthBody32
  rw [rounded_afterPhaseA32]
  simp only [roundedState]
  rw [hB]

/-- C10 as stated fails in float32.  The loan `roundedLoan` holds 300000.25 and
pays 1000.0078125, both float32 values; the difference 299000.2421875 is not
one and is stored as 299000.25.  In that month the balance falls by 1000,
`remainder` stays 0 and no rollover is applied, while the payment of the one
active loan is 1000.0078125. -/
theorem month_conserves_payments_float_counterexample :
    round32 roundedLoan.Amount = roundedLoan.Amount ∧
    round32 roundedLoan.Payment = roundedLoan.Payment ∧
    (monthBody32 roundedState).1.LoanInfos.map (fun v => v.Amount) = [1196001 / 4] ∧
    ((roundedState.LoanInfos.map (fun v => v.Amount)).sum
        - ((monthBody32 roundedState).1.LoanInfos.map (fun v => v.Amount)).sum)
      + ((monthBody32 roundedState).1.remainder - roundedState.remainder) = 1000 ∧
    ((roundedState.LoanInfos.filter (fun v => !skipped32 roundedState.dateTracker v)).map
          (fun v => v.Payment + v.AdditionalPayment)).sum
      + (if redirects32 roundedState.dateTracker (afterPhaseA32 roundedState).1
            (afterPhaseA32 roundedState).2.remainder (monthBody32 roundedState).1.rollOver
          then (monthBody32 roundedState).1.rollOver else 0) = 128001 / 128 ∧
    (1000 : ℚ) ≠ 128001 / 128 := by
  have hA : round32 (1200001 / 4) = 1200001 / 4 := by
    have := round32_dyadic 1200001 2 (by norm_num) (by norm_num)
    norm_num at this
    exact this
  have hsk : skipped32 0 roundedLoan = false := by
    have hc := round32_floor
    norm_num [roundedLoan, skipped32, hc]
  refine ⟨by simpa [roundedLoan] using hA,
    by simpa [roundedLoan] using round32_rounded_payment, ?_, ?_, ?_, by norm_num⟩
  · rw [rounded_monthBody32]
    rfl
  · rw [rounded_monthBody32]
    norm_num [roundedState, roundedLoan]
  · rw [rounded_monthBody32, rounded_afterPhaseA32]
    simp only [roundedState, List.filter, hsk, rounded_redirects32]
    norm_num [roundedLoan]

end SheetsTest
